import Mathlib

/-!
Verification development for the vizia scene-tree / hover-resolution core.

The definitions below are a shallow embedding of
`crates/vizia_core/src/systems/hover.rs` (functions `hover_system` and
`hover_entity`, struct `ZEntity`) and of the depth-first pre-order
iterator closures of `crates/vizia_storage/src/tree/iter/tree_iter.rs`.
`f32` coordinates are modelled as rationals; machine floats carry no
claim-relevant rounding here.  Per-node attribute stores are modelled as
functions from entities to optional values, matching the sparse-store
`get`/`get_mut` reads of the source.  State mutated during a pass
(priority queue, hovered accumulator, pseudo-class flags, restyle marks)
is threaded explicitly; the `unwrap` on the transform inversion at
hover.rs line 148 is modelled by an `Option` result where `none` is the
panic.
-/

namespace Vizia

/-- Entities (NodeIds) are abstract identifiers; the generational
structure is irrelevant to the hover pass, which only compares ids. -/
abbrev Entity := Nat

/-- Pointer-events mode, spec section 6: `{Auto, None}`.  Modelled from the
spec: the enum definition (`vizia_style` `pointer_events.rs`) is not under
`src/`; hover.rs lines 122-125 match exactly these two variants, and the
spec default for an absent value is Auto. -/
inductive PointerEvents where
  | auto
  | none
  deriving DecidableEq, Repr, Inhabited

/-- Display mode, spec section 6: `{Normal, None}`.  Modelled from the
spec: the enum definition is not under `src/`; hover.rs line 111 compares
against `Display::None`, and the default of an absent value is the
displayed state. -/
inductive Display where
  | flex
  | none
  deriving DecidableEq, Repr, Inhabited, BEq

/-- The two pseudo-class bits touched by the hover pass (OVER and HOVER
of `PseudoClassFlags`); the remaining bits are untouched by hover.rs and
omitted. The default (absent entry read through `unwrap_or_default`) has
both bits clear. -/
structure PseudoClassFlags where
  over : Bool
  hover : Bool
  deriving DecidableEq, Repr, Inhabited

/-- Axis-aligned rectangle with position and size, as vizia's
`BoundingBox { x, y, w, h }`. -/
structure BoundingBox where
  x : ℚ
  y : ℚ
  w : ℚ
  h : ℚ
  deriving DecidableEq, Repr, Inhabited

def BoundingBox.left (b : BoundingBox) : ℚ := b.x
def BoundingBox.right (b : BoundingBox) : ℚ := b.x + b.w
def BoundingBox.top (b : BoundingBox) : ℚ := b.y
def BoundingBox.bottom (b : BoundingBox) : ℚ := b.y + b.h

/-- Rectangle intersection.  Modelled from the spec ("cumulative clip
region (intersection of parent clip and own clip)"): the `BoundingBox`
implementation is not under `src/`; a non-overlapping intersection yields
a rectangle with non-positive extent, which the half-open hit test can
never match. -/
def BoundingBox.intersection (a b : BoundingBox) : BoundingBox :=
  let nx := max a.x b.x
  let ny := max a.y b.y
  { x := nx, y := ny,
    w := min (a.x + a.w) (b.x + b.w) - nx,
    h := min (a.y + a.h) (b.y + b.h) - ny }

/-- The hit-test comparison of hover.rs line 162:
`tx >= b.left() && tx < b.right() && ty >= b.top() && ty < b.bottom()`. -/
def hitTest (b : BoundingBox) (tx ty : ℚ) : Bool :=
  decide (b.left ≤ tx) && decide (tx < b.right) &&
    decide (b.top ≤ ty) && decide (ty < b.bottom)

/-- Affine 2D transform, the six live entries of a skia `Matrix`
(scaleX, skewX, transX, skewY, scaleY, transY). -/
structure Matrix where
  sx : ℚ
  kx : ℚ
  tx : ℚ
  ky : ℚ
  sy : ℚ
  ty : ℚ
  deriving DecidableEq, Repr, Inhabited

def Matrix.identity : Matrix := ⟨1, 0, 0, 0, 1, 0⟩

/-- `Matrix::map_point`: `(x, y) ↦ (sx*x + kx*y + tx, ky*x + sy*y + ty)`. -/
def Matrix.mapPoint (m : Matrix) (x y : ℚ) : ℚ × ℚ :=
  (m.sx * x + m.kx * y + m.tx, m.ky * x + m.sy * y + m.ty)

/-- Matrix concatenation: `(a.mul b).mapPoint p = a.mapPoint (b.mapPoint p)`,
the skia `a * b`. -/
def Matrix.mul (a b : Matrix) : Matrix where
  sx := a.sx * b.sx + a.kx * b.ky
  kx := a.sx * b.kx + a.kx * b.sy
  tx := a.sx * b.tx + a.kx * b.ty + a.tx
  ky := a.ky * b.sx + a.sy * b.ky
  sy := a.ky * b.kx + a.sy * b.sy
  ty := a.ky * b.tx + a.sy * b.ty + a.ty

def Matrix.det (m : Matrix) : ℚ := m.sx * m.sy - m.kx * m.ky

/-- `Matrix::invert`: `none` exactly on a singular (non-invertible)
transform, where the source's `.unwrap()` panics. -/
def Matrix.invert (m : Matrix) : Option Matrix :=
  let d := m.det
  if d = 0 then Option.none
  else some
    { sx := m.sy / d, kx := -m.kx / d, tx := (m.kx * m.ty - m.sy * m.tx) / d,
      ky := -m.ky / d, sy := m.sx / d, ty := (m.ky * m.tx - m.sx * m.ty) / d }

/-- Work item of the hover priority queue, hover.rs lines 202-206. -/
structure ZEntity where
  index : Int
  pointerEvents : Bool
  entity : Entity
  deriving DecidableEq, Repr

instance : Inhabited ZEntity := ⟨⟨0, false, 0⟩⟩

/-- The `Ord` impl of hover.rs lines 208-212:
`self.cmp(other) = other.index.cmp(&self.index)` (reversed on z-index, so
the max-heap pops the smallest z-index first). -/
def ZEntity.cmpZ (a b : ZEntity) : Ordering := compare b.index a.index

/-- Rust `>` on `ZEntity` (per the reversed `Ord`). -/
def ZEntity.gtZ (a b : ZEntity) : Bool := ZEntity.cmpZ a b == Ordering.gt

/-- Rust `<=` on `ZEntity` (per the reversed `Ord`). -/
def ZEntity.leZ (a b : ZEntity) : Bool := !(ZEntity.gtZ a b)

/-!
The priority queue is `std::collections::BinaryHeap`, an array-backed
binary max-heap.  Its element order is repository-external (Rust std);
the functions below transcribe std's `push`/`sift_up` and
`pop`/`sift_down_to_bottom` so that the pop order of equal-z-index items —
which hover resolution observes — is that of the compiled program.
-/

/-- std `BinaryHeap::sift_up`: the hole at `pos` holding `elt` moves up
while the element compares greater than the parent. `fuel` bounds the
walk (the initial `pos` always suffices). -/
def siftUp (elt : ZEntity) : List ZEntity → Nat → Nat → List ZEntity
  | data, pos, 0 => data.set pos elt
  | data, pos, fuel + 1 =>
    if pos = 0 then data.set pos elt
    else
      let parent := (pos - 1) / 2
      let pv := data.getD parent default
      if ZEntity.gtZ elt pv then siftUp elt (data.set pos pv) parent fuel
      else data.set pos elt

/-- `BinaryHeap::push`: append, then sift up from the last slot. -/
def heapPush (data : List ZEntity) (x : ZEntity) : List ZEntity :=
  siftUp x (data ++ [x]) data.length data.length

/-- The descent loop of std `sift_down_to_bottom`: move the hole to the
greater child (ties pick the right child, by the `<=` comparison) until
no pair of children remains; returns the data and the hole position. -/
def siftDownLoop : List ZEntity → Nat → Nat → List ZEntity × Nat
  | data, pos, 0 => (data, pos)
  | data, pos, fuel + 1 =>
    let child := 2 * pos + 1
    if child + 2 ≤ data.length then
      let child :=
        if ZEntity.leZ (data.getD child default) (data.getD (child + 1) default)
        then child + 1 else child
      siftDownLoop (data.set pos (data.getD child default)) child fuel
    else (data, pos)

/-- std `BinaryHeap::sift_down_to_bottom` for the hole element `elt`
starting at slot 0: descend the hole to the bottom, take a sole
remaining child, then sift the element back up. -/
def siftDownToBottom (data : List ZEntity) (elt : ZEntity) : List ZEntity :=
  let dp := siftDownLoop data 0 data.length
  let d := dp.1
  let pos := dp.2
  let child := 2 * pos + 1
  let dp2 :=
    if child = d.length - 1 then (d.set pos (d.getD child default), child)
    else (d, pos)
  siftUp elt dp2.1 dp2.2 dp2.2

/-- `BinaryHeap::pop`: remove the last element, swap it into the root
slot, return the old root, and restore the heap shape. -/
def heapPop (data : List ZEntity) : Option ZEntity × List ZEntity :=
  match data.getLast? with
  | Option.none => (Option.none, [])
  | some last =>
    let rest := data.dropLast
    if rest.isEmpty then (some last, [])
    else (some (rest.headD default), siftDownToBottom (rest.set 0 last) last)

/-- Pop every element of the heap in order (observation helper). -/
def heapPopAll : Nat → List ZEntity → List ZEntity
  | 0, _ => []
  | fuel + 1, data =>
    match heapPop data with
    | (Option.none, _) => []
    | (some z, rest) => z :: heapPopAll fuel rest

/-- The read-only per-node attribute stores consumed by the hover pass
(spec section 6), each sparse exactly as the source reads it.
`abilitiesHoverable e` is the value of
`abilities.get(e).map(|a| a.contains(Abilities::HOVERABLE))`
(the store holds the HOVERABLE bit of an existing entry);
`pseudoInit` is the pseudo-class store at the start of the pass. -/
structure Store where
  abilitiesHoverable : Entity → Option Bool
  display : Entity → Option Display
  textSpan : Entity → Option Bool
  pointerEvents : Entity → Option PointerEvents
  zIndex : Entity → Option Int
  cursorStyle : Entity → Option Nat
  bounds : Entity → BoundingBox
  clipRegion : Entity → BoundingBox
  transformOf : Entity → Matrix
  pseudoInit : Entity → Option PseudoClassFlags

/-- Static context of one hover resolution pass: the attribute store, the
tree (children in draw order, as `DrawChildIterator` yields them, and
layout-parent links for `LayoutParentIterator` — both iterators modelled
from the spec's sibling-order / ancestor-chain descriptions), the mouse
position, the cursor-icon lock, the previously hovered entity
(`cx.hovered`) and the window entity seeding the walk. -/
structure Ctx where
  store : Store
  children : Entity → List Entity
  layoutParent : Entity → Option Entity
  cursorX : ℚ
  cursorY : ℚ
  cursorIconLocked : Bool
  hovered : Entity
  window : Entity

/-- State mutated during the walk: the priority queue, the hovered
accumulator, the pseudo-class store (OVER/HOVER bits) and the or der ed
restyle marks. -/
structure WalkSt where
  queue : List ZEntity
  hovered : Entity
  pseudo : Entity → Option PseudoClassFlags
  restyles : List Entity

/-- Point update of a sparse pseudo-class store. -/
def setPseudo (m : Entity → Option PseudoClassFlags) (e : Entity)
    (v : Option PseudoClassFlags) : Entity → Option PseudoClassFlags :=
  fun x => if x = e then v else m x

/-- The HOVER-clearing write of hover.rs lines 157-159. -/
def clearHover (st : WalkSt) (n : Entity) : WalkSt :=
  { st with pseudo := (setPseudo st.pseudo n
      ((st.pseudo n).map (fun pc => { pc with hover := false }))) }


/-- Write the hovered accumulator (hover.rs line 163). -/
def withHovered (st : WalkSt) (n : Entity) : WalkSt := { st with hovered := n }


/-- The OVER-assertion block of hover.rs lines 165-178, applied to the
state after the hovered accumulator was written. -/
def markOver (st : WalkSt) (n : Entity) : WalkSt :=
  if !(((st.pseudo n).getD default).over) then
    match st.pseudo n with
    | some pc =>
      { st with
        pseudo := (setPseudo st.pseudo n (some { pc with over := true })),
        restyles := st.restyles ++ [n] }
    | Option.none => st
  else st


/-- The OVER-clearing block of hover.rs lines 179-192 for a visited
node that no longer matches. -/
def unmarkOver (st : WalkSt) (n : Entity) : WalkSt :=
  if ((st.pseudo n).getD default).over then
    match st.pseudo n with
    | some pc =>
      { st with
        pseudo := (setPseudo st.pseudo n (some { pc with over := false })),
        restyles := st.restyles ++ [n] }
    | Option.none => st
  else st


/-- `hover_entity` of hover.rs lines 88-200.  `fuel` bounds the recursion
depth (the source recurses on an acyclic tree); exhaustion yields
`Option.none`, as does the `.unwrap()` panic on a non-invertible
cumulative transform at line 148. -/
def hoverEntity (c : Ctx) : Nat → Int → Bool → Matrix → BoundingBox →
    Entity → WalkSt → Option WalkSt
  | 0, _, _, _, _, _, _ => Option.none
  | fuel + 1, currentZ, parentPointerEvents, parentTransform, clipBounds, current, st =>
    -- Skip if non-hoverable (will skip any descendants), lines 97-107.
    let hoverable := (c.store.abilitiesHoverable current).getD true
    if !hoverable then some st
    -- Skip if not displayed and not a text span, lines 109-115.
    else if ((c.store.display current).getD Display.flex == Display.none)
        && !((c.store.textSpan current).getD false) then some st
    else
      -- Effective pointer events: explicit value, else inherited, lines 117-126.
      let pointerEvents :=
        match c.store.pointerEvents current with
        | some PointerEvents.auto => true
        | some PointerEvents.none => false
        | Option.none => parentPointerEvents
      -- Defer to the queue if the z-index exceeds the current one, lines 128-133.
      let zIndex := (c.store.zIndex current).getD 0
      if currentZ < zIndex then
        some { st with queue := heapPush st.queue ⟨zIndex, pointerEvents, current⟩ }
      else
        let bounds := c.store.bounds current
        -- Negative cursor coordinates short-circuit, lines 140-142.
        if c.cursorX < 0 ∨ c.cursorY < 0 then some st
        else
          let transform := (c.store.transformOf current).mul parentTransform
          match transform.invert with
          | Option.none => Option.none
          | some ti =>
            let p := ti.mapPoint c.cursorX c.cursorY
            let clipping := clipBounds.intersection (c.store.clipRegion current)
            let b := bounds.intersection clipping
            -- Clear HOVER on the visited node (when an entry exists), lines 157-159.
            let st1 : WalkSt := clearHover st current
            -- Hit test and OVER transitions, lines 161-193: on a match the
            -- hovered accumulator is written and OVER asserted; on a
            -- non-match a stale OVER is cleared.
            let st2 : WalkSt :=
              if pointerEvents then
                if hitTest b p.1 p.2 then markOver (withHovered st1 current) current
                else unmarkOver st1 current
              else st1
            -- Recurse into the children in draw order, lines 195-199.
            List.foldlM
              (fun s ch => hoverEntity c fuel currentZ pointerEvents transform clipping ch s)
              st2 (c.children current)

/-- The f32::MAX stand-in for the initial clip bounds of hover.rs
lines 25-26. -/
def FMAX : ℚ := 340282350000000000000000000000000000000

/-- The initial clip bounds of hover.rs lines 25-26. -/
def hugeClip : BoundingBox := ⟨-(FMAX / 2), -(FMAX / 2), FMAX, FMAX⟩

/-- The pop-process loop of hover.rs lines 27-40: every popped work item
restarts from the identity transform and the huge clip. `lfuel` bounds
the number of iterations; exhaustion with a non-empty queue yields
`Option.none`. -/
def hoverLoop (c : Ctx) (dfuel : Nat) : Nat → WalkSt → Option WalkSt
  | 0, st => if st.queue.isEmpty then some st else Option.none
  | lfuel + 1, st =>
    match heapPop st.queue with
    | (Option.none, _) => some st
    | (some z, q) =>
      match hoverEntity c dfuel z.index z.pointerEvents Matrix.identity hugeClip
          z.entity { st with queue := q } with
      | Option.none => Option.none
      | some st2 => hoverLoop c dfuel lfuel st2

/-- Specification side of the last-match claim: the match trace of one
`hover_entity` call — the nodes at which the hovered-accumulator write
of hover.rs line 163 fires, in visit order.  Its guards transcribe the
guards of hover.rs lines 97-162 (the same skip conditions, the same
z-index deferral, the same hit test, the same draw-order recursion) so
that the visit order and the match condition are exactly the source's;
it depends only on the tree, the attribute store and the pointer, never
on the mutable walk state, whose contents feed none of those guards.
The theorems below compare the source-translated walk against it. -/
def hoverMatches (c : Ctx) : Nat → Int → Bool → Matrix → BoundingBox →
    Entity → List Entity
  | 0, _, _, _, _, _ => []
  | fuel + 1, currentZ, parentPointerEvents, parentTransform, clipBounds, current =>
    let hoverable := (c.store.abilitiesHoverable current).getD true
    if !hoverable then []
    else if ((c.store.display current).getD Display.flex == Display.none)
        && !((c.store.textSpan current).getD false) then []
    else
      let pointerEvents :=
        match c.store.pointerEvents current with
        | some PointerEvents.auto => true
        | some PointerEvents.none => false
        | Option.none => parentPointerEvents
      let zIndex := (c.store.zIndex current).getD 0
      if currentZ < zIndex then []
      else
        let bounds := c.store.bounds current
        if c.cursorX < 0 ∨ c.cursorY < 0 then []
        else
          let transform := (c.store.transformOf current).mul parentTransform
          match transform.invert with
          | Option.none => []
          | some ti =>
            let p := ti.mapPoint c.cursorX c.cursorY
            let clipping := clipBounds.intersection (c.store.clipRegion current)
            let b := bounds.intersection clipping
            List.foldl
              (fun acc ch =>
                acc ++ hoverMatches c fuel currentZ pointerEvents transform clipping ch)
              (if pointerEvents then
                if hitTest b p.1 p.2 then [current] else []
              else [])
              (c.children current)

/-- The match trace of the pop-process loop: the concatenation of the
match traces of the popped work items in pop order, threaded through
the very states the loop computes. -/
def loopMatches (c : Ctx) (dfuel : Nat) : Nat → WalkSt → List Entity
  | 0, _ => []
  | lfuel + 1, st =>
    match heapPop st.queue with
    | (Option.none, _) => []
    | (some z, q) =>
      hoverMatches c dfuel z.index z.pointerEvents Matrix.identity hugeClip z.entity
        ++ match hoverEntity c dfuel z.index z.pointerEvents Matrix.identity hugeClip
              z.entity { st with queue := q } with
           | Option.none => []
           | some st2 => loopMatches c dfuel lfuel st2

/-- The chain yielded by `LayoutParentIterator::new(&tree, e)`: the node
itself followed by its layout parents.  Modelled from the spec ("the
winning node's ancestor chain ... gets the hover pseudo-state asserted"):
the iterator's code is not under `src/`; the chain must include the
winning node itself, which is the only place the pass sets HOVER. -/
def parentChain (c : Ctx) : Nat → Option Entity → List Entity
  | 0, _ => []
  | _, Option.none => []
  | fuel + 1, some e => e :: parentChain c fuel (c.layoutParent e)

/-- The post-walk HOVER assertion of hover.rs lines 42-52: every chain
member whose flags carry OVER without HOVER gets HOVER set. -/
def ancestorHoverFix (chain : List Entity)
    (pm : Entity → Option PseudoClassFlags) : Entity → Option PseudoClassFlags :=
  chain.foldl
    (fun m a =>
      match m a with
      | some pc => if pc.over && !pc.hover then setPseudo m a (some { pc with hover := true }) else m
      | Option.none => m)
    pm

/-- Event propagation: `.direct(e)` versus `.target(e)` (bubbling up). -/
inductive Propagation where
  | direct
  | up
  deriving DecidableEq, Repr

/-- The window events pushed by `hover_system`. -/
inductive EventKind where
  | setCursor (icon : Nat)
  | mouseEnter
  | mouseLeave
  | mouseOver
  | mouseOut
  deriving DecidableEq, Repr

/-- An entry of the event queue: kind, target entity, propagation. -/
structure REvent where
  kind : EventKind
  target : Entity
  prop : Propagation
  deriving DecidableEq, Repr

/-- Result of one `hover_system` call: the stored hovered entity after
the pass, the pseudo-class store, the pushed events in queue order, and
the restyle marks in order. -/
structure OutSt where
  newHovered : Entity
  pseudo : Entity → Option PseudoClassFlags
  events : List REvent
  restyles : List Entity

/-- hover.rs lines 42-85: the ancestor HOVER fix followed by the
transition block (cursor event when unlocked, enter/leave directed,
over/out bubbling, restyle of old and new) executed only when the
resolved entity differs from `cx.hovered`. -/
def postProcess (c : Ctx) (dfuel : Nat) (st : WalkSt) : OutSt :=
  let pseudo := ancestorHoverFix (parentChain c dfuel (some st.hovered)) st.pseudo
  if st.hovered ≠ c.hovered then
    let cursor := (c.store.cursorStyle st.hovered).getD 0
    { newHovered := st.hovered,
      pseudo := pseudo,
      events :=
        (if !c.cursorIconLocked then [⟨EventKind.setCursor cursor, c.window, Propagation.up⟩] else [])
          ++ [⟨EventKind.mouseEnter, st.hovered, Propagation.direct⟩,
              ⟨EventKind.mouseLeave, c.hovered, Propagation.direct⟩,
              ⟨EventKind.mouseOver, st.hovered, Propagation.up⟩,
              ⟨EventKind.mouseOut, c.hovered, Propagation.up⟩],
      restyles := st.restyles ++ [c.hovered, st.hovered] }
  else
    { newHovered := c.hovered, pseudo := pseudo, events := [], restyles := st.restyles }

/-- The seed pointer-events value of hover.rs lines 19-20: the window's
explicit value, absent entries defaulting to Auto (enabled). -/
def seedPointerEvents (c : Ctx) : Bool :=
  match (c.store.pointerEvents c.window).getD PointerEvents.auto with
  | PointerEvents.auto => true
  | PointerEvents.none => false

/-- The initial walk state of hover.rs lines 18-26: the queue seeded
with the window at z-index 0, the hovered accumulator on the window,
the pseudo-class store as given, no restyle marks. -/
def initialWalkSt (c : Ctx) : WalkSt :=
  { queue := heapPush [] ⟨0, seedPointerEvents c, c.window⟩, hovered := c.window,
    pseudo := c.store.pseudoInit, restyles := [] }

/-- `hover_system` of hover.rs lines 9-86.  Returns `Option.none` when
the walk panics (non-invertible transform) or fuel runs out; otherwise
the full observable outcome of the pass. -/
def hoverSystem (c : Ctx) (dfuel lfuel : Nat) : Option OutSt :=
  -- Early return when the window has pseudo-class flags without OVER, lines 12-16.
  let skip : Bool :=
    match c.store.pseudoInit c.window with
    | some pc => !pc.over
    | Option.none => false
  if skip then
    some { newHovered := c.hovered, pseudo := c.store.pseudoInit, events := [], restyles := [] }
  else
    match hoverLoop c dfuel lfuel (initialWalkSt c) with
    | Option.none => Option.none
    | some st => some (postProcess c dfuel st)

/-- The match trace of a full pass: the match traces of all processed
work items, in processing order, started from the seeded walk state. -/
def passMatches (c : Ctx) (dfuel lfuel : Nat) : List Entity :=
  loopMatches c dfuel lfuel (initialWalkSt c)

/-- The effective pointer-events computation of hover.rs lines 117-126:
the explicit value when set, otherwise the value inherited from the
parent's resolved value. -/
def peOf (st : Store) (inherited : Bool) (e : Entity) : Bool :=
  match st.pointerEvents e with
  | some PointerEvents.auto => true
  | some PointerEvents.none => false
  | Option.none => inherited

/-- Walk reachability with the inherited pointer-events value: `ReachPE
c m pm` holds when the hover walk can reach node `m` from the window
with `pm` as the pointer-events value inherited into `m` (the window
inherits the user-agent default, enabled). -/
inductive ReachPE (c : Ctx) : Entity → Bool → Prop where
  | refl : ReachPE c c.window true
  | step {m : Entity} {pm : Bool} {ch : Entity} :
      ReachPE c m pm → ch ∈ c.children m → ReachPE c ch (peOf c.store pm m)

/-- Node `m` is reachable and its effective pointer-events value along
that path is enabled — the only nodes the walk may ever write into the
hovered accumulator. -/
def MatchedPE (c : Ctx) (m : Entity) : Prop :=
  ∃ pm, ReachPE c m pm ∧ peOf c.store pm m = true

/-- `v` is a correctly computed pointer-events value for node `n`:
it equals the effective value along some walk path into `n`. -/
def PEValid (c : Ctx) (n : Entity) (v : Bool) : Prop :=
  ∃ pm, ReachPE c n pm ∧ v = peOf c.store pm n

/-!
Depth-first pre-order tree iteration
(`crates/vizia_storage/src/tree/iter/tree_iter.rs`).

The forward closure of `TreeIterator::next` (lines 37-42) emits a node
when entering it and then descends into the first child, taking the next
sibling after leaving — the sequence `preorder` below.  The backward
closure of `next_back` (lines 49-54) descends into the last child on
entering without emitting and emits a node when leaving it, taking the
previous sibling next — the sequence `revPreorder` below.  A tree is a
rose tree of entities (children listed first-to-last sibling).
-/

inductive VTree where
  | node : Entity → List VTree → VTree

mutual
/-- The sequence yielded by the forward cursor driven alone: node, then
the subtrees of the children in sibling order. -/
def preorder : VTree → List Entity
  | VTree.node e cs => e :: preorderList cs
/-- Forward traversal of a sibling list. -/
def preorderList : List VTree → List Entity
  | [] => []
  | c :: cs => preorder c ++ preorderList cs
end

mutual
/-- The sequence yielded by the backward cursor driven alone: subtrees
of the children from the last sibling backwards, each fully, then the
node itself (emitted on leaving). -/
def revPreorder : VTree → List Entity
  | VTree.node e cs => revPreorderList cs ++ [e]
/-- Backward traversal of a sibling list (last sibling first). -/
def revPreorderList : List VTree → List Entity
  | [] => []
  | c :: cs => revPreorderList cs ++ revPreorder c
end

/-- Modelled from the spec: the `DoubleEndedTreeTour` pairing of the two
cursors is not under `src/` (only the per-step closures above are); the
spec describes the pair as one double-ended cursor over the pre-order
sequence, "driven to meet in the middle without double-visiting or
skipping any node".  The shared state is the segment of the pre-order
sequence not yet yielded by either side. -/
structure TreeIterState where
  remaining : List Entity

/-- Both cursors of `TreeIterator::subtree` start on the full pre-order
sequence of the subtree. -/
def TreeIterState.ofTree (t : VTree) : TreeIterState := ⟨preorder t⟩

/-- Forward step (`next`): yield the head of the remaining segment. -/
def TreeIterState.next : TreeIterState → Option Entity × TreeIterState
  | ⟨[]⟩ => (Option.none, ⟨[]⟩)
  | ⟨x :: xs⟩ => (some x, ⟨xs⟩)

/-- Backward step (`next_back`): yield the last element of the
remaining segment. -/
def TreeIterState.nextBack : TreeIterState → Option Entity × TreeIterState
  | ⟨[]⟩ => (Option.none, ⟨[]⟩)
  | ⟨x :: xs⟩ =>
    match (⟨xs⟩ : TreeIterState).nextBack with
    | (Option.none, _) => (some x, ⟨[]⟩)
    | (some y, ⟨ys⟩) => (some y, ⟨x :: ys⟩)

/-- Drive the forward cursor `k` times, collecting the yielded items. -/
def drainFront : Nat → TreeIterState → List Entity × TreeIterState
  | 0, s => ([], s)
  | k + 1, s =>
    match s.next with
    | (Option.none, s2) => ([], s2)
    | (some x, s2) =>
      let r := drainFront k s2
      (x :: r.1, r.2)

/-- Drive the backward cursor `k` times, collecting the yielded items
in yield order. -/
def drainBack : Nat → TreeIterState → List Entity × TreeIterState
  | 0, s => ([], s)
  | k + 1, s =>
    match s.nextBack with
    | (Option.none, s2) => ([], s2)
    | (some x, s2) =>
      let r := drainBack k s2
      (x :: r.1, r.2)

/-! ### Concrete scenario configurations -/

/-- Concrete witness tree for C7: ids `[0, 1, 3, 2]` in pre-order. -/
def t7 : VTree := VTree.node 0 [VTree.node 1 [VTree.node 3 []], VTree.node 2 []]


/-- A base attribute store: every attribute absent (so every default
applies), window-sized bounds, identity transforms, no clipping, and
the window (entity 0) carrying OVER so the pass is not skipped. -/
def baseStore : Store where
  abilitiesHoverable := fun _ => Option.none
  display := fun _ => Option.none
  textSpan := fun _ => Option.none
  pointerEvents := fun _ => Option.none
  zIndex := fun _ => Option.none
  cursorStyle := fun _ => Option.none
  bounds := fun _ => ⟨0, 0, 200, 200⟩
  clipRegion := fun _ => hugeClip
  transformOf := fun _ => Matrix.identity
  pseudoInit := fun e => if e = 0 then some ⟨true, false⟩ else Option.none


/-- C1 scenario: the window 0 has one child 1 whose transform is the
zero matrix, hence singular; the pointer is at (10, 10). -/
def cx1 : Ctx where
  store := { baseStore with
    transformOf := fun e => if e = 1 then ⟨0, 0, 0, 0, 0, 0⟩ else Matrix.identity }
  children := fun e => if e = 0 then [1] else []
  layoutParent := fun e => if e = 0 then Option.none else some 0
  cursorX := 10
  cursorY := 10
  cursorIconLocked := false
  hovered := 0
  window := 0


/-- C10 scenario where the guard fires: window entry present, OVER
clear. -/
def cx10w : Ctx where
  store := { baseStore with
    pseudoInit := fun e => if e = 0 then some ⟨false, false⟩ else Option.none }
  children := fun e => if e = 0 then [1] else []
  layoutParent := fun e => if e = 0 then Option.none else some 0
  cursorX := 10
  cursorY := 10
  cursorIconLocked := false
  hovered := 0
  window := 0


/-- C10 scenario refuting the claim as stated: the window has no
pseudo-class entry (so its flags, read with the empty default, do not
contain OVER), yet the pass walks the tree: a child matching the
pointer becomes hovered and events are emitted. -/
def cx10c : Ctx where
  store := { baseStore with
    pseudoInit := fun _ => Option.none,
    bounds := fun e => if e = 1 then ⟨0, 0, 50, 50⟩ else ⟨0, 0, 200, 200⟩ }
  children := fun e => if e = 0 then [1] else []
  layoutParent := fun e => if e = 0 then Option.none else some 0
  cursorX := 10
  cursorY := 10
  cursorIconLocked := false
  hovered := 0
  window := 0


/-- C9 scenario: pointer at (-5, 10); window 0 carries OVER without
HOVER; one child exists but is never reached. -/
def cx9w : Ctx where
  store := baseStore
  children := fun e => if e = 0 then [1] else []
  layoutParent := fun e => if e = 0 then Option.none else some 0
  cursorX := -5
  cursorY := 10
  cursorIconLocked := false
  hovered := 0
  window := 0


/-- Scenario for the C3 witness: hover moves from the previously
hovered child 2 to child 1 under the pointer. -/
def cx3 : Ctx where
  store := { baseStore with
    bounds := fun e =>
      if e = 1 then ⟨0, 0, 50, 50⟩
      else if e = 2 then ⟨100, 0, 50, 50⟩
      else ⟨0, 0, 200, 200⟩ }
  children := fun e => if e = 0 then [1, 2] else []
  layoutParent := fun e => if e = 0 then Option.none else some 0
  cursorX := 10
  cursorY := 10
  cursorIconLocked := false
  hovered := 2
  window := 0


/-- C2 scenario, parameterised by the pointer: window R = 0 with
children A = 1 (default z-index 0) and B = 2 (z-index 5); A has child
C = 3 whose bounds [40,80) × [40,80) overlap B's bounds
[50,150) × [0,200). -/
def cx2p (px py : ℚ) : Ctx where
  store := { baseStore with
    zIndex := fun e => if e = 2 then some 5 else Option.none,
    bounds := fun e =>
      if e = 0 then ⟨0, 0, 200, 200⟩
      else if e = 1 then ⟨0, 0, 100, 200⟩
      else if e = 2 then ⟨50, 0, 100, 200⟩
      else ⟨40, 40, 40, 40⟩ }
  children := fun e => if e = 0 then [1, 2] else if e = 1 then [3] else []
  layoutParent := fun e =>
    if e = 0 then Option.none else if e = 3 then some 1 else some 0
  cursorX := px
  cursorY := py
  cursorIconLocked := false
  hovered := 0
  window := 0


/-- The pseudo-class store after the z-0 phase of the C2 walk. -/
def psQ : Entity → Option PseudoClassFlags :=
  setPseudo (setPseudo (setPseudo
    (fun e => if e = 0 then some ⟨true, false⟩ else Option.none)
    0 (some ⟨true, false⟩)) 1 Option.none) 3 Option.none


/-- C6 counterexample scenario: ancestor P = 1 (bounds [0,100) square)
with descendant D = 2 (bounds [20,60) square) both under the pointer
(30, 30); cousin E = 3 at z-index 5 covers the window and is processed
last. -/
def cx6 : Ctx where
  store := { baseStore with
    zIndex := fun e => if e = 3 then some 5 else Option.none,
    bounds := fun e =>
      if e = 1 then ⟨0, 0, 100, 100⟩
      else if e = 2 then ⟨20, 20, 40, 40⟩
      else ⟨0, 0, 200, 200⟩ }
  children := fun e => if e = 0 then [1, 3] else if e = 1 then [2] else []
  layoutParent := fun e =>
    if e = 0 then Option.none else if e = 2 then some 1 else some 0
  cursorX := 30
  cursorY := 30
  cursorIconLocked := false
  hovered := 0
  window := 0

/-- The C6 scenario without the high-z cousin: the matching descendant
is the last matching visit and wins. -/
def cx6b : Ctx where
  store := cx6.store
  children := fun e => if e = 0 then [1] else if e = 1 then [2] else []
  layoutParent := cx6.layoutParent
  cursorX := 30
  cursorY := 30
  cursorIconLocked := false
  hovered := 0
  window := 0

/-- C8 scenario: four siblings 1..4, all at z-index 5, inserted into
the priority queue in sibling order while processing the window; only
2 and 3 (bounds [40,60) x [0,10)) contain the pointer (50, 5). -/
def cx8 : Ctx where
  store := { baseStore with
    zIndex := fun e => if 1 ≤ e ∧ e ≤ 4 then some 5 else Option.none,
    bounds := fun e =>
      if e = 0 then ⟨0, 0, 200, 200⟩
      else if e = 1 then ⟨0, 0, 10, 10⟩
      else if e = 4 then ⟨20, 0, 10, 10⟩
      else ⟨40, 0, 20, 10⟩ }
  children := fun e => if e = 0 then [1, 2, 3, 4] else []
  layoutParent := fun e => if e = 0 then Option.none else some 0
  cursorX := 50
  cursorY := 5
  cursorIconLocked := false
  hovered := 0
  window := 0

/-! ### Supporting lemmas -/

mutual
theorem revPreorder_eq_reverse : (t : VTree) → revPreorder t = (preorder t).reverse
  | VTree.node e cs => by
    simp [revPreorder, preorder, revPreorderList_eq_reverse cs]
theorem revPreorderList_eq_reverse :
    (l : List VTree) → revPreorderList l = (preorderList l).reverse
  | [] => by simp [revPreorderList, preorderList]
  | c :: cs => by
    simp [revPreorderList, preorderList, revPreorder_eq_reverse c,
      revPreorderList_eq_reverse cs]
end

theorem drainFront_spec (k : Nat) : ∀ l : List Entity,
    drainFront k ⟨l⟩ = (l.take k, ⟨l.drop k⟩) := by
  induction k with
  | zero => intro l; simp [drainFront]
  | succ k ih =>
    intro l
    cases l with
    | nil => simp [drainFront, TreeIterState.next]
    | cons x xs => simp [drainFront, TreeIterState.next, ih xs]

theorem nextBack_spec : ∀ l : List Entity,
    TreeIterState.nextBack ⟨l⟩ = (l.getLast?, ⟨l.dropLast⟩) := by
  intro l
  induction l with
  | nil => simp [TreeIterState.nextBack]
  | cons x xs ih =>
    cases xs with
    | nil => simp [TreeIterState.nextBack]
    | cons y ys =>
      have hne : (y :: ys : List Entity) ≠ [] := by simp
      have h1 : (y :: ys).getLast? = some ((y :: ys).getLast hne) :=
        List.getLast?_eq_getLast_of_ne_nil hne
      simp only [TreeIterState.nextBack, ih, h1]
      simp [List.getLast?_cons_cons, h1, List.dropLast]

theorem drainBack_spec (k : Nat) : ∀ l : List Entity,
    drainBack k ⟨l⟩ = ((l.reverse.take k), ⟨(l.reverse.drop k).reverse⟩) := by
  induction k with
  | zero => intro l; simp [drainBack]
  | succ k ih =>
    intro l
    rcases em (l = []) with rfl | hne
    · simp [drainBack, TreeIterState.nextBack]
    · have hrev : l.reverse = l.getLast hne :: l.dropLast.reverse := by
        conv_lhs => rw [← List.dropLast_append_getLast hne]
        simp
      rw [drainBack, nextBack_spec, List.getLast?_eq_getLast_of_ne_nil hne]
      simp only [ih l.dropLast, hrev]
      simp

/-! ### Claim C7 -/

/-- C7: for every tree and every `k` between `0` and `N`, driving the
forward cursor of the depth-first pre-order iterator for `k` items and
the backward cursor for the remaining `N − k` items yields the front
items, then (reversed) the back items, concatenating exactly to the
single forward pre-order traversal; nothing remains, the two cursors
yield `k` and `N − k` items respectively, the backward closure alone
yields the exact reverse of the forward closure, and, when the tree's
ids are distinct, every node is yielded exactly once across the two
cursors. -/
theorem C7_tree_iterator_meet_in_middle (t : VTree) (k : Nat)
    (hk : k ≤ (preorder t).length) :
    (drainFront k (TreeIterState.ofTree t)).1 ++
        ((drainBack ((preorder t).length - k)
          (drainFront k (TreeIterState.ofTree t)).2).1).reverse = preorder t
    ∧ (drainFront k (TreeIterState.ofTree t)).1.length = k
    ∧ (drainBack ((preorder t).length - k)
        (drainFront k (TreeIterState.ofTree t)).2).1.length = (preorder t).length - k
    ∧ (drainBack ((preorder t).length - k)
        (drainFront k (TreeIterState.ofTree t)).2).2.remaining = []
    ∧ revPreorder t = (preorder t).reverse
    ∧ ((preorder t).Nodup → ∀ e ∈ preorder t,
        ((drainFront k (TreeIterState.ofTree t)).1 ++
          ((drainBack ((preorder t).length - k)
            (drainFront k (TreeIterState.ofTree t)).2).1).reverse).count e = 1) := by
  have hf : drainFront k (TreeIterState.ofTree t) =
      ((preorder t).take k, ⟨(preorder t).drop k⟩) := drainFront_spec k (preorder t)
  have hlen : ((preorder t).drop k).reverse.length = (preorder t).length - k := by
    simp
  have hb : drainBack ((preorder t).length - k) (⟨(preorder t).drop k⟩ : TreeIterState) =
      (((preorder t).drop k).reverse, ⟨[]⟩) := by
    rw [drainBack_spec]
    rw [← hlen, List.take_length, List.drop_length]
    simp
  have hmain : (drainFront k (TreeIterState.ofTree t)).1 ++
      ((drainBack ((preorder t).length - k)
        (drainFront k (TreeIterState.ofTree t)).2).1).reverse = preorder t := by
    rw [hf]
    simp only [hb]
    simp [List.take_append_drop]
  refine ⟨hmain, ?_, ?_, ?_, revPreorder_eq_reverse t, ?_⟩
  · rw [hf]; simp [List.length_take, Nat.min_eq_left hk]
  · rw [hf]; simp only [hb]; exact hlen
  · rw [hf]; simp only [hb]
  · intro hnd e he
    rw [hmain]
    exact List.count_eq_one_of_mem hnd he

/-- Witness for C7 at the concrete tree `t7` and `k = 2`. -/
theorem C7_tree_iterator_meet_in_middle_witness :
    (drainFront 2 (TreeIterState.ofTree t7)).1 ++
        ((drainBack ((preorder t7).length - 2)
          (drainFront 2 (TreeIterState.ofTree t7)).2).1).reverse = preorder t7
    ∧ (2 : Nat) ≤ (preorder t7).length := by
  refine ⟨(C7_tree_iterator_meet_in_middle t7 2 (by decide)).1, by decide⟩

/-! ### Claim C4 -/

/-- C4: the hover hit test uses half-open interval semantics — the
locally-mapped position (tx, ty) matches the effective bounds `b`
exactly when `tx ∈ [left, right)` and `ty ∈ [top, bottom)`; two
axis-aligned rectangles meeting at an edge never both match (so
adjacent non-overlapping siblings never both claim a boundary pixel);
and for siblings sharing the edge `x = 100`, the pointer at `x = 100`
matches only the sibling whose bounds start at 100, never the one whose
bounds end there. -/
theorem C4_hit_test_half_open :
    (∀ (b : BoundingBox) (tx ty : ℚ), hitTest b tx ty = true ↔
        (b.left ≤ tx ∧ tx < b.right ∧ b.top ≤ ty ∧ ty < b.bottom))
    ∧ (∀ (b1 b2 : BoundingBox) (tx ty : ℚ), b1.right ≤ b2.left →
        hitTest b1 tx ty = true → hitTest b2 tx ty = true → False)
    ∧ hitTest ⟨0, 0, 100, 50⟩ 100 10 = false
    ∧ hitTest ⟨100, 0, 100, 50⟩ 100 10 = true := by
  have hiff : ∀ (b : BoundingBox) (tx ty : ℚ), hitTest b tx ty = true ↔
      (b.left ≤ tx ∧ tx < b.right ∧ b.top ≤ ty ∧ ty < b.bottom) := by
    intro b tx ty
    simp [hitTest, and_assoc]
  refine ⟨hiff, ?_, by with_unfolding_all rfl, by with_unfolding_all rfl⟩
  intro b1 b2 tx ty hedge h1 h2
  have hx1 := ((hiff b1 tx ty).mp h1).2.1
  have hx2 := ((hiff b2 tx ty).mp h2).1
  exact absurd (lt_of_lt_of_le hx1 (le_trans hedge hx2)) (lt_irrefl tx)

/-- Witness for C4: the two concrete siblings sharing the edge at
`x = 100` do not both match the boundary pixel. -/
theorem C4_hit_test_half_open_witness :
    ¬(hitTest ⟨0, 0, 100, 50⟩ 100 10 = true ∧ hitTest ⟨100, 0, 100, 50⟩ 100 10 = true) :=
  fun h => C4_hit_test_half_open.2.1 ⟨0, 0, 100, 50⟩ ⟨100, 0, 100, 50⟩ 100 10
    (by with_unfolding_all rfl ) h.1 h.2

/-! ### Claim C1 -/

/-- C1 counterexample: on the concrete scenario `cx1`, where the child's
cumulative transform is singular, the hover resolution pass panics
(modelled `Option.none`, from the `.unwrap()` of hover.rs line 148) —
the node is not skipped and its children are not walked, contradicting
the claim that the pass does not crash. -/
theorem C1_singular_transform_counterexample :
    hoverSystem cx1 10 10 = Option.none
    ∧ ((cx1.store.transformOf 1).mul Matrix.identity).det = 0
    ∧ cx1.children 0 = [1] := by
  refine ⟨by with_unfolding_all rfl, by with_unfolding_all rfl, rfl⟩

/-- C1 amended: a node visited by the walk (hoverable, displayed, not
deferred by z-index, cursor non-negative) whose cumulative affine
transform is non-invertible makes `hover_entity` panic — the `unwrap`
on the failed inversion — instead of being skipped with its children
walked. -/
theorem C1_singular_transform_panics (c : Ctx) (fuel : Nat) (cz : Int) (pe : Bool)
    (tf : Matrix) (cl : BoundingBox) (n : Entity) (st : WalkSt)
    (hhov : (c.store.abilitiesHoverable n).getD true = true)
    (hdisp : (((c.store.display n).getD Display.flex == Display.none)
      && !((c.store.textSpan n).getD false)) = false)
    (hz : (c.store.zIndex n).getD 0 ≤ cz)
    (hcur : ¬(c.cursorX < 0 ∨ c.cursorY < 0))
    (hdet : ((c.store.transformOf n).mul tf).det = 0) :
    hoverEntity c (fuel + 1) cz pe tf cl n st = Option.none := by
  have hz' : ¬ (cz < (c.store.zIndex n).getD 0) := not_lt.mpr hz
  simp only [hoverEntity]
  simp [hhov, hdisp, hz', hcur, Matrix.invert, hdet]

/-- Witness for C1 amended, at the concrete scenario `cx1`, node 1. -/
theorem C1_singular_transform_panics_witness :
    hoverEntity cx1 3 0 true Matrix.identity hugeClip 1
      ⟨[], 0, cx1.store.pseudoInit, []⟩ = Option.none :=
  C1_singular_transform_panics cx1 2 0 true Matrix.identity hugeClip 1
    ⟨[], 0, cx1.store.pseudoInit, []⟩
    (by with_unfolding_all rfl) (by with_unfolding_all rfl) (by decide)
    (by rintro (h | h) <;> revert h <;> with_unfolding_all decide)
    (by with_unfolding_all rfl)

/-! ### Claim C10 -/

/-- C10 amended: when the window entity has a pseudo-class entry whose
flags do not contain OVER, `hover_system` returns immediately: the
stored hovered entity, the pseudo-class store, the event queue and the
restyle marks are all unchanged. (When the window has no pseudo-class
entry at all, the pass proceeds — see the counterexample.) -/
theorem C10_over_guard_early_return (c : Ctx) (df lf : Nat) (pc : PseudoClassFlags)
    (hpc : c.store.pseudoInit c.window = some pc) (hover : pc.over = false) :
    hoverSystem c df lf =
      some ⟨c.hovered, c.store.pseudoInit, [], []⟩ := by
  simp only [hoverSystem, hpc, hover]
  rfl

/-- Witness for C10 amended on `cx10w`. -/
theorem C10_over_guard_early_return_witness :
    hoverSystem cx10w 3 3 = some ⟨cx10w.hovered, cx10w.store.pseudoInit, [], []⟩ :=
  C10_over_guard_early_return cx10w 3 3 ⟨false, false⟩ rfl rfl

/-- C10 counterexample: with the window's pseudo-class flags absent —
hence not containing OVER — `hover_system` does not return immediately:
it resolves the hovered entity to child 1 and emits five events. -/
theorem C10_over_guard_counterexample :
    cx10c.store.pseudoInit cx10c.window = Option.none
    ∧ (hoverSystem cx10c 5 5).map (fun o => o.newHovered) = some 1
    ∧ (hoverSystem cx10c 5 5).map (fun o => o.events.length) = some 5
    ∧ cx10c.hovered = 0 := by
  refine ⟨rfl, by with_unfolding_all rfl, by with_unfolding_all rfl, rfl⟩

/-! ### Claim C9 -/

theorem heapPush_nil (z : ZEntity) : heapPush [] z = [z] := rfl

theorem heapPop_nil : heapPop [] = (Option.none, []) := rfl

theorem heapPop_single (z : ZEntity) : heapPop [z] = (some z, []) := rfl

/-- With a negative cursor coordinate, one `hover_entity` call either
leaves the walk state untouched, or — when its z-index defers it — only
pushes itself onto the queue; in particular it matches nothing, writes
no pseudo-class flag and never recurses into children. -/
theorem hoverEntity_neg_cursor (c : Ctx) (hneg : c.cursorX < 0 ∨ c.cursorY < 0)
    (fuel : Nat) (cz : Int) (pe : Bool) (tf : Matrix) (cl : BoundingBox)
    (n : Entity) (st : WalkSt) :
    hoverEntity c (fuel + 1) cz pe tf cl n st = some st
    ∨ (hoverEntity c (fuel + 1) cz pe tf cl n st =
        some { st with queue := (heapPush st.queue
          ⟨(c.store.zIndex n).getD 0, peOf c.store pe n, n⟩) }
      ∧ cz < (c.store.zIndex n).getD 0) := by
  simp only [hoverEntity]
  cases hhov : (c.store.abilitiesHoverable n).getD true with
  | false => left; simp [hhov]
  | true =>
    cases hdisp : (((c.store.display n).getD Display.flex == Display.none)
        && !((c.store.textSpan n).getD false)) with
    | true => left; simp [hhov, hdisp]
    | false =>
      by_cases hz : cz < (c.store.zIndex n).getD 0
      · right
        refine ⟨?_, hz⟩
        simp [hhov, hdisp, hz, peOf]
      · left
        simp [hhov, hdisp, hz, hneg]

/-- With a negative cursor, the pop-process loop started on a single
z-index-0 work item terminates with an empty queue and an otherwise
unchanged state: the seeded entity may re-enter the queue once via the
z-index deferral, but every visit returns before the hit test. -/
theorem hoverLoop_neg_cursor (c : Ctx) (hneg : c.cursorX < 0 ∨ c.cursorY < 0)
    (df lf : Nat) (z0 : ZEntity) (h0 : Entity)
    (ps : Entity → Option PseudoClassFlags) (rs : List Entity) :
    hoverLoop c (df + 1) (lf + 3) ⟨[z0], h0, ps, rs⟩ = some ⟨[], h0, ps, rs⟩ := by
  rw [hoverLoop, heapPop_single]
  dsimp only
  rcases hoverEntity_neg_cursor c hneg df z0.index z0.pointerEvents Matrix.identity
      hugeClip z0.entity ⟨[], h0, ps, rs⟩ with he | ⟨he, _⟩
  · rw [he]
    dsimp only
    rw [hoverLoop, heapPop_nil]
  · rw [he]
    dsimp only
    simp only [heapPush_nil]
    rw [hoverLoop, heapPop_single]
    dsimp only
    rcases hoverEntity_neg_cursor c hneg df ((c.store.zIndex z0.entity).getD 0)
        (peOf c.store z0.pointerEvents z0.entity) Matrix.identity
        hugeClip z0.entity ⟨[], h0, ps, rs⟩ with he2 | ⟨_, hlt2⟩
    · rw [he2]
      dsimp only
      rw [hoverLoop, heapPop_nil]
    · exact absurd hlt2 (lt_irrefl _)

/-- C9 amended: a pointer position with a negative coordinate
short-circuits the walk — only the seeded window item is ever visited
(possibly twice via its own z-index deferral), no node matches the hit
test, no pseudo-class flag and no restyle mark is produced by the walk,
and the resolved hovered node is the window entity the walk was seeded
with; the output is exactly the post-walk processing (ancestor HOVER
fix and transition block) applied to the untouched initial state. -/
theorem C9_negative_cursor_short_circuit (c : Ctx) (df lf : Nat)
    (hdf : 1 ≤ df) (hlf : 3 ≤ lf)
    (hguard : ∀ pc, c.store.pseudoInit c.window = some pc → pc.over = true)
    (hneg : c.cursorX < 0 ∨ c.cursorY < 0) :
    hoverSystem c df lf = some (postProcess c df ⟨[], c.window, c.store.pseudoInit, []⟩)
    ∧ (hoverSystem c df lf).map (fun o => o.newHovered) = some c.window := by
  obtain ⟨df', rfl⟩ : ∃ d, df = d + 1 := ⟨df - 1, by omega⟩
  obtain ⟨lf', rfl⟩ : ∃ l, lf = l + 3 := ⟨lf - 3, by omega⟩
  have hskip : (match c.store.pseudoInit c.window with
      | some pc => !pc.over
      | Option.none => false) = false := by
    cases h : c.store.pseudoInit c.window with
    | none => rfl
    | some pc => simp [hguard pc h]
  have hmain : hoverSystem c (df' + 1) (lf' + 3) =
      some (postProcess c (df' + 1) ⟨[], c.window, c.store.pseudoInit, []⟩) := by
    rw [hoverSystem]
    simp only [hskip, Bool.false_eq_true, if_false, initialWalkSt, heapPush_nil]
    rw [hoverLoop_neg_cursor c hneg]
  refine ⟨hmain, ?_⟩
  rw [hmain]
  by_cases h : c.window = c.hovered
  · simp [postProcess, h]
  · simp [postProcess, h]

/-- Witness for C9 amended on `cx9w`. -/
theorem C9_negative_cursor_short_circuit_witness :
    hoverSystem cx9w 1 3 = some (postProcess cx9w 1 ⟨[], cx9w.window, cx9w.store.pseudoInit, []⟩)
    ∧ (hoverSystem cx9w 1 3).map (fun o => o.newHovered) = some cx9w.window :=
  C9_negative_cursor_short_circuit cx9w 1 3 (by decide) (by decide)
    (fun _ h => (Option.some.inj h) ▸ rfl)
    (Or.inl (by norm_num [cx9w]))

/-- C9 counterexample: in the same pass with a negative cursor
coordinate, the window's HOVER pseudo-class flag is newly set by the
post-walk ancestor fix (OVER was present without HOVER), contradicting
the claim that no node's hover state is newly set. -/
theorem C9_negative_cursor_counterexample :
    (hoverSystem cx9w 2 3).map (fun o => o.pseudo 0) = some (some ⟨true, true⟩)
    ∧ cx9w.store.pseudoInit 0 = some ⟨true, false⟩
    ∧ cx9w.cursorX < 0 := by
  refine ⟨by with_unfolding_all rfl, rfl, by norm_num [cx9w]⟩

/-! ### One-step unfolding lemmas for the walk -/

/-- One visit of a node that passes every guard, has effective pointer
events enabled and matches the hit test: the hovered accumulator is
written, OVER is asserted, and the children are folded over with the
accumulated transform and clip. -/
theorem hoverEntity_visit_hit (c : Ctx) (fuel : Nat) (cz : Int) (pe : Bool)
    (tf : Matrix) (cl : BoundingBox) (n : Entity) (st : WalkSt) (ti : Matrix)
    (hhov : (c.store.abilitiesHoverable n).getD true = true)
    (hdisp : (((c.store.display n).getD Display.flex == Display.none)
      && !((c.store.textSpan n).getD false)) = false)
    (hz : ¬(cz < (c.store.zIndex n).getD 0))
    (hcur : ¬(c.cursorX < 0 ∨ c.cursorY < 0))
    (hti : ((c.store.transformOf n).mul tf).invert = some ti)
    (hpe : peOf c.store pe n = true)
    (hhit : hitTest ((c.store.bounds n).intersection (cl.intersection (c.store.clipRegion n)))
        (ti.mapPoint c.cursorX c.cursorY).1 (ti.mapPoint c.cursorX c.cursorY).2 = true) :
    hoverEntity c (fuel + 1) cz pe tf cl n st =
      List.foldlM
        (fun s ch => hoverEntity c fuel cz (peOf c.store pe n)
          ((c.store.transformOf n).mul tf) (cl.intersection (c.store.clipRegion n)) ch s)
        (markOver (withHovered (clearHover st n) n) n)
        (c.children n) := by
  simp only [peOf] at hpe
  simp only [hoverEntity, hhov, hdisp, hz, hcur, hti, hpe, hhit, markOver, clearHover,
    withHovered, setPseudo, peOf]
  simp

/-- One visit of a node that passes every guard and has effective
pointer events enabled but does not match the hit test: the hovered
accumulator is untouched, OVER is cleared when present, and the
children are folded over. -/
theorem hoverEntity_visit_nohit (c : Ctx) (fuel : Nat) (cz : Int) (pe : Bool)
    (tf : Matrix) (cl : BoundingBox) (n : Entity) (st : WalkSt) (ti : Matrix)
    (hhov : (c.store.abilitiesHoverable n).getD true = true)
    (hdisp : (((c.store.display n).getD Display.flex == Display.none)
      && !((c.store.textSpan n).getD false)) = false)
    (hz : ¬(cz < (c.store.zIndex n).getD 0))
    (hcur : ¬(c.cursorX < 0 ∨ c.cursorY < 0))
    (hti : ((c.store.transformOf n).mul tf).invert = some ti)
    (hpe : peOf c.store pe n = true)
    (hhit : hitTest ((c.store.bounds n).intersection (cl.intersection (c.store.clipRegion n)))
        (ti.mapPoint c.cursorX c.cursorY).1 (ti.mapPoint c.cursorX c.cursorY).2 = false) :
    hoverEntity c (fuel + 1) cz pe tf cl n st =
      List.foldlM
        (fun s ch => hoverEntity c fuel cz (peOf c.store pe n)
          ((c.store.transformOf n).mul tf) (cl.intersection (c.store.clipRegion n)) ch s)
        (unmarkOver (clearHover st n) n)
        (c.children n) := by
  simp only [peOf] at hpe
  simp only [hoverEntity, hhov, hdisp, hz, hcur, hti, hpe, hhit, unmarkOver, clearHover,
    setPseudo, peOf]
  simp

/-- One visit of a node whose z-index exceeds the current processing
z-index: the node is deferred onto the priority queue and nothing else
happens. -/
theorem hoverEntity_deferred (c : Ctx) (fuel : Nat) (cz : Int) (pe : Bool)
    (tf : Matrix) (cl : BoundingBox) (n : Entity) (st : WalkSt)
    (hhov : (c.store.abilitiesHoverable n).getD true = true)
    (hdisp : (((c.store.display n).getD Display.flex == Display.none)
      && !((c.store.textSpan n).getD false)) = false)
    (hz : cz < (c.store.zIndex n).getD 0) :
    hoverEntity c (fuel + 1) cz pe tf cl n st =
      some { st with queue := (heapPush st.queue
        ⟨(c.store.zIndex n).getD 0, peOf c.store pe n, n⟩) } := by
  simp only [hoverEntity, hhov, hdisp, hz, peOf]
  simp [hhov]

/-- One iteration of the pop-process loop when the queue pops an item. -/
theorem hoverLoop_step (c : Ctx) (df lf : Nat) (st : WalkSt) (z : ZEntity)
    (q : List ZEntity) (hpop : heapPop st.queue = (some z, q)) :
    hoverLoop c df (lf + 1) st =
      match hoverEntity c df z.index z.pointerEvents Matrix.identity hugeClip
          z.entity { st with queue := q } with
      | Option.none => Option.none
      | some st2 => hoverLoop c df lf st2 := by
  rw [hoverLoop, hpop]

/-- The pop-process loop on an empty queue is finished. -/
theorem hoverLoop_done (c : Ctx) (df lf : Nat) (st : WalkSt)
    (hq : st.queue = []) : hoverLoop c df lf st = some st := by
  cases lf with
  | zero => simp [hoverLoop, hq]
  | succ lf => rw [hoverLoop, hq, heapPop_nil]

theorem mapPoint_id (x y : ℚ) : Matrix.identity.mapPoint x y = (x, y) := by
  simp [Matrix.mapPoint, Matrix.identity]

/-- Bridge for discharging the hit-test side condition of a visit step:
rewrite the effective bounds and the identity-mapped point. -/
theorem hitTest_via (b b' : BoundingBox) (m : Matrix) (x y : ℚ) (v : Bool)
    (hb : b = b') (hm : m.mapPoint x y = (x, y)) (h : hitTest b' x y = v) :
    hitTest b (m.mapPoint x y).1 (m.mapPoint x y).2 = v := by
  rw [hb, hm]
  exact h

/-! ### Claim C2 -/

theorem cx2p_tf (px py : ℚ) (e : Entity) :
    (cx2p px py).store.transformOf e = Matrix.identity := rfl

theorem cx2p_clip (px py : ℚ) (e : Entity) :
    (cx2p px py).store.clipRegion e = hugeClip := rfl

theorem mulII : Matrix.mul Matrix.identity Matrix.identity = Matrix.identity := by
  with_unfolding_all rfl

theorem invII : Matrix.identity.invert = some Matrix.identity := by
  with_unfolding_all rfl

theorem interHH : hugeClip.intersection hugeClip = hugeClip := by
  with_unfolding_all rfl

theorem inter200H : BoundingBox.intersection ⟨0, 0, 200, 200⟩ hugeClip = ⟨0, 0, 200, 200⟩ := by
  with_unfolding_all rfl

theorem inter100H : BoundingBox.intersection ⟨0, 0, 100, 200⟩ hugeClip = ⟨0, 0, 100, 200⟩ := by
  with_unfolding_all rfl

theorem interBH : BoundingBox.intersection ⟨50, 0, 100, 200⟩ hugeClip = ⟨50, 0, 100, 200⟩ := by
  with_unfolding_all rfl

theorem interCH : BoundingBox.intersection ⟨40, 40, 40, 40⟩ hugeClip = ⟨40, 40, 40, 40⟩ := by
  with_unfolding_all rfl

/-- The cumulative transform inversion at every node of the C2
scenario: all transforms are the identity. -/
theorem cx2p_ti (px py : ℚ) (e : Entity) :
    (((cx2p px py).store.transformOf e).mul Matrix.identity).invert = some Matrix.identity := by
  rw [cx2p_tf, mulII, invII]

theorem cx2p_b0 (px py : ℚ) :
    ((cx2p px py).store.bounds 0).intersection
      (hugeClip.intersection ((cx2p px py).store.clipRegion 0)) = ⟨0, 0, 200, 200⟩ := by
  simp only [cx2p_clip, show (cx2p px py).store.bounds 0 = ⟨0, 0, 200, 200⟩ from rfl]
  with_unfolding_all rfl

theorem cx2p_b1 (px py : ℚ) :
    ((cx2p px py).store.bounds 1).intersection
      ((hugeClip.intersection ((cx2p px py).store.clipRegion 0)).intersection
        ((cx2p px py).store.clipRegion 1)) = ⟨0, 0, 100, 200⟩ := by
  simp only [cx2p_clip, show (cx2p px py).store.bounds 1 = ⟨0, 0, 100, 200⟩ from rfl]
  with_unfolding_all rfl

theorem cx2p_b3 (px py : ℚ) :
    ((cx2p px py).store.bounds 3).intersection
      (((hugeClip.intersection ((cx2p px py).store.clipRegion 0)).intersection
        ((cx2p px py).store.clipRegion 1)).intersection
        ((cx2p px py).store.clipRegion 3)) = ⟨40, 40, 40, 40⟩ := by
  simp only [cx2p_clip, show (cx2p px py).store.bounds 3 = ⟨40, 40, 40, 40⟩ from rfl]
  with_unfolding_all rfl

theorem cx2p_b2 (px py : ℚ) :
    ((cx2p px py).store.bounds 2).intersection
      (hugeClip.intersection ((cx2p px py).store.clipRegion 2)) = ⟨50, 0, 100, 200⟩ := by
  simp only [cx2p_clip, show (cx2p px py).store.bounds 2 = ⟨50, 0, 100, 200⟩ from rfl]
  with_unfolding_all rfl

set_option maxHeartbeats 1000000 in
/-- Phase 1 of the C2 walk: processing the popped window item visits
R = 0, A = 1 and C = 3 (each matches, the hovered accumulator ends on
C = 3) and defers B = 2 at z-index 5 onto the queue. -/
theorem c2_walk_phase1 (px py : ℚ)
    (h1 : 50 ≤ px) (h2 : px < 80) (h3 : 40 ≤ py) (h4 : py < 80) :
    hoverEntity (cx2p px py) 3 0 true Matrix.identity hugeClip 0
      ⟨[], 0, (cx2p px py).store.pseudoInit, []⟩ =
      some ⟨[⟨5, true, 2⟩], 3, psQ, []⟩ := by
  have hcur : ¬((cx2p px py).cursorX < 0 ∨ (cx2p px py).cursorY < 0) := by
    show ¬(px < 0 ∨ py < 0)
    push_neg
    constructor <;> linarith
  have hR : hitTest ⟨0, 0, 200, 200⟩ px py = true := by
    simp only [hitTest, BoundingBox.left, BoundingBox.right, BoundingBox.top,
      BoundingBox.bottom, Bool.and_eq_true, decide_eq_true_eq]
    refine ⟨⟨⟨by linarith, by linarith⟩, by linarith⟩, by linarith⟩
  have hA : hitTest ⟨0, 0, 100, 200⟩ px py = true := by
    simp only [hitTest, BoundingBox.left, BoundingBox.right, BoundingBox.top,
      BoundingBox.bottom, Bool.and_eq_true, decide_eq_true_eq]
    refine ⟨⟨⟨by linarith, by linarith⟩, by linarith⟩, by linarith⟩
  have hC : hitTest ⟨40, 40, 40, 40⟩ px py = true := by
    simp only [hitTest, BoundingBox.left, BoundingBox.right, BoundingBox.top,
      BoundingBox.bottom, Bool.and_eq_true, decide_eq_true_eq]
    refine ⟨⟨⟨by linarith, by linarith⟩, by linarith⟩, by linarith⟩
  rw [hoverEntity_visit_hit (cx2p px py) 2 0 true Matrix.identity hugeClip 0 _
    Matrix.identity rfl rfl (show ¬(0:Int) < 0 by decide) hcur (cx2p_ti px py 0) rfl
    (hitTest_via _ ⟨0, 0, 200, 200⟩ _ px py true (cx2p_b0 px py)
      (mapPoint_id px py) hR)]
  simp only [show (cx2p px py).children 0 = [1, 2] from rfl,
    show peOf (cx2p px py).store true 0 = true from rfl,
    cx2p_tf, mulII, List.foldlM, Option.bind_eq_bind', Option.some_bind]
  rw [hoverEntity_visit_hit (cx2p px py) 1 0 true Matrix.identity
    (hugeClip.intersection ((cx2p px py).store.clipRegion 0)) 1 _
    Matrix.identity rfl rfl (show ¬(0:Int) < 0 by decide) hcur (cx2p_ti px py 1) rfl
    (hitTest_via _ ⟨0, 0, 100, 200⟩ _ px py true (cx2p_b1 px py)
      (mapPoint_id px py) hA)]
  simp only [show (cx2p px py).children 1 = [3] from rfl,
    show peOf (cx2p px py).store true 1 = true from rfl,
    cx2p_tf, mulII, List.foldlM, Option.bind_eq_bind', Option.some_bind]
  rw [hoverEntity_visit_hit (cx2p px py) 0 0 true Matrix.identity
    ((hugeClip.intersection ((cx2p px py).store.clipRegion 0)).intersection
      ((cx2p px py).store.clipRegion 1)) 3 _
    Matrix.identity rfl rfl (show ¬(0:Int) < 0 by decide) hcur (cx2p_ti px py 3) rfl
    (hitTest_via _ ⟨40, 40, 40, 40⟩ _ px py true (cx2p_b3 px py)
      (mapPoint_id px py) hC)]
  simp only [show (cx2p px py).children 3 = ([] : List Entity) from rfl,
    List.foldlM, Option.pure_def, Option.bind_eq_bind', Option.some_bind]
  rw [hoverEntity_deferred (cx2p px py) 1 0 true Matrix.identity
    (hugeClip.intersection ((cx2p px py).store.clipRegion 0)) 2 _
    rfl rfl (show (0:Int) < 5 by decide)]
  simp only [Option.bind_eq_bind', Option.some_bind, List.foldlM]
  with_unfolding_all rfl

/-- Phase 2 of the C2 walk: the deferred item B = 2 is popped at
z-index 5, matches the hit test and overwrites the hovered
accumulator. -/
theorem c2_walk_phase2 (px py : ℚ)
    (h1 : 50 ≤ px) (h2 : px < 80) (h3 : 40 ≤ py) (h4 : py < 80) :
    hoverEntity (cx2p px py) 3 5 true Matrix.identity hugeClip 2
      ⟨[], 3, psQ, []⟩ =
      some ⟨[], 2, setPseudo psQ 2 Option.none, []⟩ := by
  have hcur : ¬((cx2p px py).cursorX < 0 ∨ (cx2p px py).cursorY < 0) := by
    show ¬(px < 0 ∨ py < 0)
    push_neg
    constructor <;> linarith
  have hB : hitTest ⟨50, 0, 100, 200⟩ px py = true := by
    simp only [hitTest, BoundingBox.left, BoundingBox.right, BoundingBox.top,
      BoundingBox.bottom, Bool.and_eq_true, decide_eq_true_eq]
    refine ⟨⟨⟨by linarith, by linarith⟩, by linarith⟩, by linarith⟩
  rw [hoverEntity_visit_hit (cx2p px py) 2 5 true Matrix.identity hugeClip 2 _
    Matrix.identity rfl rfl (show ¬(5:Int) < 5 by decide) hcur (cx2p_ti px py 2) rfl
    (hitTest_via _ ⟨50, 0, 100, 200⟩ _ px py true (cx2p_b2 px py)
      (mapPoint_id px py) hB)]
  simp only [show (cx2p px py).children 2 = ([] : List Entity) from rfl, List.foldlM]
  with_unfolding_all rfl

/-- C2: in the scenario tree — root R with children A (z-index 0) and
B (z-index 5), A's child C overlapping B's bounds — a hover resolution
pass with the pointer anywhere inside the overlap region
[50,80) × [40,80) resolves the hovered node to B (entity 2), not to C
(entity 3), because B's z-index is strictly higher. -/
theorem C2_zindex_precedence (px py : ℚ)
    (h1 : 50 ≤ px) (h2 : px < 80) (h3 : 40 ≤ py) (h4 : py < 80) :
    (hoverSystem (cx2p px py) 3 3).map (fun o => o.newHovered) = some 2 := by
  rw [hoverSystem]
  simp only [show (cx2p px py).store.pseudoInit (cx2p px py).window =
    some ⟨true, false⟩ from rfl, Bool.not_true, Bool.false_eq_true, if_false]
  rw [show initialWalkSt (cx2p px py) =
    ⟨[⟨0, true, 0⟩], 0, (cx2p px py).store.pseudoInit, []⟩ from rfl]
  rw [hoverLoop_step (cx2p px py) 3 2
    ⟨[⟨0, true, 0⟩], 0, (cx2p px py).store.pseudoInit, []⟩ ⟨0, true, 0⟩ [] rfl]
  dsimp only
  rw [c2_walk_phase1 px py h1 h2 h3 h4]
  dsimp only
  rw [hoverLoop_step (cx2p px py) 3 1
    ⟨[⟨5, true, 2⟩], 3, psQ, []⟩ ⟨5, true, 2⟩ [] rfl]
  dsimp only
  rw [c2_walk_phase2 px py h1 h2 h3 h4]
  dsimp only
  rw [hoverLoop_done (cx2p px py) 3 1 _ rfl]
  with_unfolding_all rfl

/-- Witness for C2 at the pointer (60, 60). -/
theorem C2_zindex_precedence_witness :
    (hoverSystem (cx2p 60 60) 3 3).map (fun o => o.newHovered) = some 2 :=
  C2_zindex_precedence 60 60 (by norm_num) (by norm_num) (by norm_num) (by norm_num)

/-! ### Claim C3 -/

/-- C3: in every completed hover resolution pass in which the resolved
hovered node differs from the previously hovered node, the pass pushes,
in this exact order and each exactly once (after the cursor-icon event
when the icon is not locked): a directed enter event to the new node, a
directed leave event to the old node, a bubbling over event targeted at
the new node, a bubbling out event targeted at the old node; and both
the old and the new node are marked as needing restyle.  When the
resolved node equals the previous one, no event at all is emitted. -/
theorem C3_transition_events (c : Ctx) (df lf : Nat) (out : OutSt)
    (h : hoverSystem c df lf = some out) :
    (out.newHovered ≠ c.hovered →
      out.events =
        (if c.cursorIconLocked = false
          then [⟨EventKind.setCursor ((c.store.cursorStyle out.newHovered).getD 0),
            c.window, Propagation.up⟩]
          else [])
        ++ [⟨EventKind.mouseEnter, out.newHovered, Propagation.direct⟩,
            ⟨EventKind.mouseLeave, c.hovered, Propagation.direct⟩,
            ⟨EventKind.mouseOver, out.newHovered, Propagation.up⟩,
            ⟨EventKind.mouseOut, c.hovered, Propagation.up⟩]
      ∧ c.hovered ∈ out.restyles ∧ out.newHovered ∈ out.restyles)
    ∧ (out.newHovered = c.hovered → out.events = []) := by
  rw [hoverSystem] at h
  split at h
  · injection h with h
    subst h
    exact ⟨fun hne => absurd rfl hne, fun _ => rfl⟩
  · cases hres : hoverLoop c df lf (initialWalkSt c) with
    | none =>
      rw [hres] at h
      simp at h
    | some st =>
      rw [hres] at h
      simp only [] at h
      injection h with h
      subst h
      rw [postProcess]
      split
      · rename_i hne
        refine ⟨fun _ => ⟨?_, ?_, ?_⟩, fun heq => absurd heq hne⟩
        · cases hlock : c.cursorIconLocked <;> simp [hlock]
        · simp
        · simp
      · exact ⟨fun hne => absurd rfl hne, fun _ => rfl⟩

/-- Witness for C3 on `cx3`: the pass resolves node 1 while node 2 was
hovered before, and the four transition events appear in order after
the cursor event. -/
theorem C3_transition_events_witness :
    ∃ out, hoverSystem cx3 5 5 = some out ∧
      (out.newHovered ≠ cx3.hovered →
        out.events =
          (if cx3.cursorIconLocked = false
            then [⟨EventKind.setCursor ((cx3.store.cursorStyle out.newHovered).getD 0),
              cx3.window, Propagation.up⟩]
            else [])
          ++ [⟨EventKind.mouseEnter, out.newHovered, Propagation.direct⟩,
              ⟨EventKind.mouseLeave, cx3.hovered, Propagation.direct⟩,
              ⟨EventKind.mouseOver, out.newHovered, Propagation.up⟩,
              ⟨EventKind.mouseOut, cx3.hovered, Propagation.up⟩]
        ∧ cx3.hovered ∈ out.restyles ∧ out.newHovered ∈ out.restyles)
      ∧ (out.newHovered = cx3.hovered → out.events = []) := by
  have h : (hoverSystem cx3 5 5).isSome = true := by with_unfolding_all rfl
  obtain ⟨out, hout⟩ := Option.isSome_iff_exists.mp h
  exact ⟨out, hout, C3_transition_events cx3 5 5 out hout⟩

/-! ### Heap membership lemmas -/

theorem getD_mem {l : List ZEntity} {n : Nat} (h : n < l.length) (d : ZEntity) :
    l.getD n d ∈ l := by
  rw [List.getD_eq_getElem?_getD, List.getElem?_eq_getElem h]
  exact List.getElem_mem h

theorem length_siftUp (elt : ZEntity) :
    ∀ (data : List ZEntity) (pos fuel : Nat), (siftUp elt data pos fuel).length = data.length := by
  intro data pos fuel
  induction fuel generalizing data pos with
  | zero => simp [siftUp]
  | succ fuel ih =>
    rw [siftUp]
    split
    · simp
    · dsimp only
      split
      · rw [ih]; simp
      · simp

theorem mem_siftUp (elt : ZEntity) :
    ∀ (data : List ZEntity) (pos fuel : Nat) (x : ZEntity), pos < data.length →
      x ∈ siftUp elt data pos fuel → x ∈ data ∨ x = elt := by
  intro data pos fuel
  induction fuel generalizing data pos with
  | zero =>
    intro x _ hx
    rw [siftUp] at hx
    exact (List.mem_or_eq_of_mem_set hx)
  | succ fuel ih =>
    intro x hpos hx
    rw [siftUp] at hx
    split at hx
    · exact List.mem_or_eq_of_mem_set hx
    · rename_i hpos0
      dsimp only at hx
      split at hx
      · have hparent : (pos - 1) / 2 < data.length := by
          have : (pos - 1) / 2 ≤ pos - 1 := Nat.div_le_self _ _
          omega
        have hparent2 : (pos - 1) / 2 < (data.set pos (data.getD ((pos - 1) / 2) default)).length := by
          simpa using hparent
        rcases ih _ _ x hparent2 hx with hmem | heq
        · rcases List.mem_or_eq_of_mem_set hmem with hmem2 | heq2
          · exact Or.inl hmem2
          · exact Or.inl (heq2 ▸ getD_mem hparent default)
        · exact Or.inr heq
      · exact List.mem_or_eq_of_mem_set hx

theorem mem_heapPush {data : List ZEntity} {z x : ZEntity}
    (hx : x ∈ heapPush data z) : x ∈ data ∨ x = z := by
  rcases mem_siftUp z (data ++ [z]) data.length data.length x (by simp) hx with hmem | heq
  · rcases List.mem_append.mp hmem with h | h
    · exact Or.inl h
    · exact Or.inr (List.mem_singleton.mp h)
  · exact Or.inr heq

theorem length_siftDownLoop :
    ∀ (data : List ZEntity) (pos fuel : Nat),
      (siftDownLoop data pos fuel).1.length = data.length := by
  intro data pos fuel
  induction fuel generalizing data pos with
  | zero => simp [siftDownLoop]
  | succ fuel ih =>
    rw [siftDownLoop]
    split
    · rw [ih]; simp
    · simp

theorem pos_siftDownLoop :
    ∀ (data : List ZEntity) (pos fuel : Nat), pos < data.length →
      (siftDownLoop data pos fuel).2 < data.length := by
  intro data pos fuel
  induction fuel generalizing data pos with
  | zero => intro h; simpa [siftDownLoop] using h
  | succ fuel ih =>
    intro hpos
    rw [siftDownLoop]
    split
    · rename_i hchild
      split
      · have := ih (data.set pos (data.getD (2 * pos + 1 + 1) default)) (2 * pos + 1 + 1)
          (by simp; omega)
        simpa using this
      · have := ih (data.set pos (data.getD (2 * pos + 1) default)) (2 * pos + 1)
          (by simp; omega)
        simpa using this
    · exact hpos

theorem mem_siftDownLoop :
    ∀ (data : List ZEntity) (pos fuel : Nat) (x : ZEntity),
      x ∈ (siftDownLoop data pos fuel).1 → x ∈ data := by
  intro data pos fuel
  induction fuel generalizing data pos with
  | zero => intro x hx; simpa [siftDownLoop] using hx
  | succ fuel ih =>
    intro x hx
    rw [siftDownLoop] at hx
    split at hx
    · rename_i hchild
      split at hx
      · rcases List.mem_or_eq_of_mem_set (ih _ _ x hx) with h | h
        · exact h
        · exact h ▸ getD_mem (by omega) default
      · rcases List.mem_or_eq_of_mem_set (ih _ _ x hx) with h | h
        · exact h
        · exact h ▸ getD_mem (by omega) default
    · exact hx

theorem mem_siftDownToBottom {data : List ZEntity} {elt x : ZEntity}
    (hlen : 0 < data.length) (hx : x ∈ siftDownToBottom data elt) :
    x ∈ data ∨ x = elt := by
  unfold siftDownToBottom at hx
  set dp := siftDownLoop data 0 data.length with hdp
  have hlen1 : dp.1.length = data.length := length_siftDownLoop data 0 data.length
  have hpos1 : dp.2 < dp.1.length := by
    rw [hlen1]; exact pos_siftDownLoop data 0 data.length hlen
  dsimp only at hx
  split at hx
  · rename_i hchild
    have hchildlt : 2 * dp.2 + 1 < dp.1.length := by omega
    rcases mem_siftUp elt _ _ _ x (by simpa using hchildlt) hx with h | h
    · rcases List.mem_or_eq_of_mem_set h with h2 | h2
      · exact Or.inl (mem_siftDownLoop data 0 data.length x h2)
      · exact Or.inl (mem_siftDownLoop data 0 data.length _ (h2 ▸ getD_mem hchildlt default))
    · exact Or.inr h
  · rcases mem_siftUp elt _ _ _ x hpos1 hx with h | h
    · exact Or.inl (mem_siftDownLoop data 0 data.length x h)
    · exact Or.inr h

theorem mem_of_getLast? {l : List ZEntity} {a : ZEntity} (h : l.getLast? = some a) : a ∈ l := by
  cases l with
  | nil => simp at h
  | cons b bs =>
    have hne : (b :: bs : List ZEntity) ≠ [] := by simp
    rw [List.getLast?_eq_getLast_of_ne_nil hne] at h
    injection h with h
    exact h ▸ List.getLast_mem hne

theorem heapPop_mem {data q : List ZEntity} {z : ZEntity}
    (h : heapPop data = (some z, q)) : z ∈ data ∧ ∀ x ∈ q, x ∈ data := by
  unfold heapPop at h
  split at h
  · simp at h
  · rename_i last hlast
    have hlastmem : last ∈ data := mem_of_getLast? hlast
    dsimp only at h
    split at h
    · rename_i hemp
      injection h with h1 h2
      injection h1 with h1
      subst h1
      constructor
      · exact hlastmem
      · intro x hx
        rw [← h2] at hx
        simp at hx
    · rename_i hemp
      injection h with h1 h2
      injection h1 with h1
      have hmem : ∀ y ∈ data.dropLast, y ∈ data := fun y hy =>
        (List.dropLast_sublist data).subset hy
      have hne : data.dropLast ≠ [] := by
        intro hcontra
        rw [hcontra] at hemp
        simp at hemp
      have hhead : data.dropLast.headD default ∈ data.dropLast := by
        cases hd : data.dropLast with
        | nil => exact absurd hd hne
        | cons a as => simp
      constructor
      · rw [← h1]
        exact hmem _ hhead
      · intro x hx
        rw [← h2] at hx
        have hlen : 0 < (data.dropLast.set 0 last).length := by
          rw [List.length_set]
          cases hd : data.dropLast with
          | nil => exact absurd hd hne
          | cons a as => simp
        rcases mem_siftDownToBottom hlen hx with hm | hm
        · rcases List.mem_or_eq_of_mem_set hm with hm2 | hm2
          · exact hmem _ hm2
          · exact hm2 ▸ hlastmem
        · exact hm ▸ hlastmem

/-! ### Pointer-events soundness of the walk (claim C5) -/

theorem peOf_idem (st : Store) (pe : Bool) (n : Entity) :
    peOf st (peOf st pe n) n = peOf st pe n := by
  unfold peOf
  cases h : st.pointerEvents n with
  | none => rfl
  | some v => cases v <;> rfl

/-- Every queued work item carries a correctly computed pointer-events
value for its entity. -/
def QOK (c : Ctx) (q : List ZEntity) : Prop :=
  ∀ z ∈ q, PEValid c z.entity z.pointerEvents

theorem clearHover_queue (st : WalkSt) (n : Entity) :
    (clearHover st n).queue = st.queue := rfl

theorem clearHover_hovered (st : WalkSt) (n : Entity) :
    (clearHover st n).hovered = st.hovered := rfl

theorem markOver_queue (st : WalkSt) (n : Entity) :
    (markOver st n).queue = st.queue := by
  unfold markOver
  split
  · split <;> rfl
  · rfl

theorem markOver_hovered (st : WalkSt) (n : Entity) :
    (markOver st n).hovered = st.hovered := by
  unfold markOver
  split
  · split <;> rfl
  · rfl

theorem unmarkOver_queue (st : WalkSt) (n : Entity) :
    (unmarkOver st n).queue = st.queue := by
  unfold unmarkOver
  split
  · split <;> rfl
  · rfl

theorem unmarkOver_hovered (st : WalkSt) (n : Entity) :
    (unmarkOver st n).hovered = st.hovered := by
  unfold unmarkOver
  split
  · split <;> rfl
  · rfl

/-- A monadic fold over the children preserves a state predicate and
the hovered-accumulator dichotomy when every step does. -/
theorem fold_pres (Q : WalkSt → Prop) (M : Entity → Prop)
    (f : WalkSt → Entity → Option WalkSt) :
    ∀ (l : List Entity) (s s' : WalkSt),
      (∀ ch ∈ l, ∀ t t' : WalkSt, Q t → f t ch = some t' →
        Q t' ∧ (t'.hovered = t.hovered ∨ M t'.hovered)) →
      Q s → List.foldlM f s l = some s' →
      Q s' ∧ (s'.hovered = s.hovered ∨ M s'.hovered) := by
  intro l
  induction l with
  | nil =>
    intro s s' _ hq h
    simp [List.foldlM] at h
    subst h
    exact ⟨hq, Or.inl rfl⟩
  | cons a l ih =>
    intro s s' hf hq h
    rw [List.foldlM] at h
    cases hfa : f s a with
    | none => rw [hfa] at h; simp at h
    | some s1 =>
      rw [hfa] at h
      simp only [Option.bind_eq_bind', Option.some_bind] at h
      obtain ⟨hq1, hh1⟩ := hf a (by simp) s s1 hq hfa
      obtain ⟨hq2, hh2⟩ := ih s1 s' (fun ch hch => hf ch (by simp [hch])) hq1 h
      refine ⟨hq2, ?_⟩
      rcases hh2 with h2 | h2
      · rw [h2]; exact hh1
      · exact Or.inr h2

/-- Soundness of one `hover_entity` call: when the incoming
pointer-events value is correctly computed and the queue is sound, the
resulting queue is sound and the hovered accumulator is either
untouched or holds a node whose effective pointer-events value along a
walk path is enabled. -/
theorem hoverEntity_pe_sound (c : Ctx) :
    ∀ (fuel : Nat) (cz : Int) (pe : Bool) (tf : Matrix) (cl : BoundingBox)
      (n : Entity) (st st' : WalkSt),
      PEValid c n (peOf c.store pe n) → QOK c st.queue →
      hoverEntity c fuel cz pe tf cl n st = some st' →
      QOK c st'.queue ∧ (st'.hovered = st.hovered ∨ MatchedPE c st'.hovered) := by
  intro fuel
  induction fuel with
  | zero =>
    intro cz pe tf cl n st st' _ _ h
    simp [hoverEntity] at h
  | succ fuel ih =>
    intro cz pe tf cl n st st' hpev hq h
    have hchpe : ∀ ch, ch ∈ c.children n →
        PEValid c ch (peOf c.store (peOf c.store pe n) ch) := by
      intro ch hch
      obtain ⟨pm, hreach, hpeeq⟩ := hpev
      exact ⟨peOf c.store pm n, ReachPE.step hreach hch, by rw [hpeeq]⟩
    rw [hoverEntity] at h
    split at h
    · injection h with h; subst h; exact ⟨hq, Or.inl rfl⟩
    · split at h
      · injection h with h; subst h; exact ⟨hq, Or.inl rfl⟩
      · dsimp only at h
        split at h
        · injection h with h; subst h
          refine ⟨?_, Or.inl rfl⟩
          intro x hx
          rcases mem_heapPush hx with hmem | heq
          · exact hq x hmem
          · subst heq
            exact hpev
        · split at h
          · injection h with h; subst h; exact ⟨hq, Or.inl rfl⟩
          · split at h
            · exact absurd h (by simp)
            · rename_i ti hti
              have hmain := fold_pres (fun s => QOK c s.queue) (MatchedPE c) _
                (c.children n) _ st'
                (fun ch hch t t' hqt hft =>
                  ih cz _ _ _ ch t t' (hchpe ch hch) hqt hft)
                ?_ h
              · rcases hmain with ⟨hq2, hh2⟩
                refine ⟨hq2, ?_⟩
                rcases hh2 with h2 | h2
                · rw [h2]
                  split
                  · rename_i hpeT
                    split
                    · rw [markOver_hovered]
                      obtain ⟨pm, hreach, hpeeq⟩ := hpev
                      refine Or.inr ⟨pm, hreach, ?_⟩
                      show peOf c.store pm n = true
                      rw [← hpeeq]
                      exact hpeT
                    · rw [unmarkOver_hovered, clearHover_hovered]
                      exact Or.inl rfl
                  · rw [clearHover_hovered]
                    exact Or.inl rfl
                · exact Or.inr h2
              · show QOK c (WalkSt.queue _)
                split
                · split
                  · rw [markOver_queue]
                    exact hq
                  · rw [unmarkOver_queue, clearHover_queue]
                    exact hq
                · rw [clearHover_queue]
                  exact hq

/-- Soundness of the pop-process loop for the pointer-events policy. -/
theorem hoverLoop_pe_sound (c : Ctx) (df : Nat) :
    ∀ (lf : Nat) (st st' : WalkSt), QOK c st.queue →
      hoverLoop c df lf st = some st' →
      QOK c st'.queue ∧ (st'.hovered = st.hovered ∨ MatchedPE c st'.hovered) := by
  intro lf
  induction lf with
  | zero =>
    intro st st' hq h
    rw [hoverLoop] at h
    split at h
    · injection h with h; subst h; exact ⟨hq, Or.inl rfl⟩
    · simp at h
  | succ lf ih =>
    intro st st' hq h
    rw [hoverLoop] at h
    cases hpop : heapPop st.queue with
    | mk oz q =>
      rw [hpop] at h
      cases oz with
      | none =>
        injection h with h; subst h; exact ⟨hq, Or.inl rfl⟩
      | some z =>
        dsimp only at h
        obtain ⟨hzmem, hsub⟩ := heapPop_mem hpop
        have hzok : PEValid c z.entity z.pointerEvents := hq z hzmem
        have hpev : PEValid c z.entity (peOf c.store z.pointerEvents z.entity) := by
          obtain ⟨pm, hreach, heq⟩ := hzok
          exact ⟨pm, hreach, by rw [heq, peOf_idem]⟩
        have hq2 : QOK c q := fun x hx => hq x (hsub x hx)
        cases hhe : hoverEntity c df z.index z.pointerEvents Matrix.identity hugeClip
            z.entity { st with queue := q } with
        | none => rw [hhe] at h; simp at h
        | some st2 =>
          rw [hhe] at h
          obtain ⟨hq3, hh3⟩ := hoverEntity_pe_sound c df z.index z.pointerEvents
            Matrix.identity hugeClip z.entity _ st2 hpev hq2 hhe
          obtain ⟨hq4, hh4⟩ := ih st2 st' hq3 h
          refine ⟨hq4, ?_⟩
          rcases hh4 with h4 | h4
          · rw [h4]
            rcases hh3 with h3 | h3
            · rw [h3]; exact Or.inl rfl
            · exact Or.inr h3
          · exact Or.inr h4

/-- C5 (amended): (1) in every completed pass the stored hovered node
either stays the previous one, or is the window default the walk was
seeded with, or is a node whose effective pointer-events value —
computed as the explicit value if set, else the value inherited along
its walk path — is enabled; hence a node other than the seed default
whose effective pointer-events is None never becomes the hovered node.
(2) The effective value is the explicit one when set and the inherited
one otherwise. (3) A child of a node whose effective value is disabled
inherits the disabled value unless it explicitly sets its own. -/
theorem C5_pointer_events_policy (c : Ctx) (df lf : Nat) (out : OutSt)
    (h : hoverSystem c df lf = some out) :
    (out.newHovered = c.hovered ∨ out.newHovered = c.window ∨ MatchedPE c out.newHovered)
    ∧ (∀ (s : Store) (pe : Bool) (n : Entity),
        (s.pointerEvents n = some PointerEvents.auto → peOf s pe n = true)
        ∧ (s.pointerEvents n = some PointerEvents.none → peOf s pe n = false)
        ∧ (s.pointerEvents n = Option.none → peOf s pe n = pe))
    ∧ (∀ (n : Entity) (pm : Bool) (ch : Entity), ch ∈ c.children n →
        peOf c.store pm n = false → c.store.pointerEvents ch = Option.none →
        peOf c.store (peOf c.store pm n) ch = false) := by
  refine ⟨?_, ?_, ?_⟩
  · rw [hoverSystem] at h
    split at h
    · injection h with h; subst h; exact Or.inl rfl
    · cases hres : hoverLoop c df lf (initialWalkSt c) with
      | none => rw [hres] at h; simp at h
      | some st =>
        rw [hres] at h
        simp only [] at h
        injection h with h
        subst h
        have hq0 : QOK c (initialWalkSt c).queue := by
          intro z hz
          rcases mem_heapPush hz with hmem | heq
          · simp at hmem
          · subst heq
            refine ⟨true, ReachPE.refl, ?_⟩
            show seedPointerEvents c = peOf c.store true c.window
            unfold seedPointerEvents peOf
            cases hpe : c.store.pointerEvents c.window with
            | none => rfl
            | some v => cases v <;> rfl
        obtain ⟨_, hh⟩ := hoverLoop_pe_sound c df lf _ st hq0 hres
        rw [postProcess]
        dsimp only
        split
        · rcases hh with h1 | h1
          · exact Or.inr (Or.inl h1)
          · exact Or.inr (Or.inr h1)
        · exact Or.inl rfl
  · intro s pe n
    refine ⟨?_, ?_, ?_⟩ <;> intro he <;> simp [peOf, he]
  · intro n pm ch _ hpe hch
    simp only [peOf, hch]
    exact hpe

/-- C5 scenario refuting the claim as stated: the window entity 0 has
explicit pointer-events None and nothing matches, yet the pass resolves
the hovered node to the window default, which thus becomes the stored
hovered node (the previous one was entity 1). -/
def cx5 : Ctx where
  store := { baseStore with
    pointerEvents := fun e => if e = 0 then some PointerEvents.none else Option.none }
  children := fun _ => []
  layoutParent := fun _ => Option.none
  cursorX := 10
  cursorY := 10
  cursorIconLocked := false
  hovered := 1
  window := 0

/-- C5 counterexample: the window, whose effective pointer-events is
None, becomes the stored hovered node of the pass. -/
theorem C5_pe_none_counterexample :
    (hoverSystem cx5 3 3).map (fun o => o.newHovered) = some 0
    ∧ cx5.store.pointerEvents 0 = some PointerEvents.none
    ∧ cx5.hovered = 1 :=
  ⟨by with_unfolding_all rfl, rfl, rfl⟩

/-- Witness for C5 amended on `cx5`. -/
theorem C5_pointer_events_policy_witness :
    ∃ out, hoverSystem cx5 3 3 = some out ∧
      (out.newHovered = cx5.hovered ∨ out.newHovered = cx5.window
        ∨ MatchedPE cx5 out.newHovered) := by
  have h : (hoverSystem cx5 3 3).isSome = true := by with_unfolding_all rfl
  obtain ⟨out, hout⟩ := Option.isSome_iff_exists.mp h
  exact ⟨out, hout, (C5_pointer_events_policy cx5 3 3 out hout).1⟩

/-! ### Claim C6 -/

/-- C6 counterexample: both the ancestor P = 1 and its descendant D = 2
match the hit test at (30, 30) (D at z-index 0, not deferred), yet the
resolved hovered node is neither: the later-processed high-z cousin
E = 3 wins, contradicting the claim that the resolved node is the
descendant. -/
theorem C6_descendant_counterexample :
    (hoverSystem cx6 10 10).map (fun o => o.newHovered) = some 3
    ∧ hitTest ⟨0, 0, 100, 100⟩ 30 30 = true
    ∧ hitTest ⟨20, 20, 40, 40⟩ 30 30 = true
    ∧ cx6.children 1 = [2]
    ∧ ((3 : Entity) ≠ 2 ∧ (3 : Entity) ≠ 1) := by
  refine ⟨by with_unfolding_all rfl, by with_unfolding_all rfl,
    by with_unfolding_all rfl, rfl, by decide⟩

/-- Appending on the left shifts the default of the last element. -/
theorem lastD_append (l l' : List Entity) (d : Entity) :
    (l ++ l').getLast?.getD d = l'.getLast?.getD (l.getLast?.getD d) := by
  cases l' with
  | nil => simp
  | cons a t =>
    have hne : (a :: t) ≠ ([] : List Entity) := by simp
    rw [List.getLast?_append_cons, List.getLast?_eq_getLast_of_ne_nil hne]
    rfl

/-- A monadic fold over the children realises the defaulted last
element of the concatenated per-child match traces when every step
does. -/
theorem fold_last (f : WalkSt → Entity → Option WalkSt) (g : Entity → List Entity) :
    ∀ (l : List Entity) (acc : List Entity) (d : Entity) (s s' : WalkSt),
      (∀ ch ∈ l, ∀ t t' : WalkSt, f t ch = some t' →
        t'.hovered = (g ch).getLast?.getD t.hovered) →
      s.hovered = acc.getLast?.getD d →
      List.foldlM f s l = some s' →
      s'.hovered = (List.foldl (fun a ch => a ++ g ch) acc l).getLast?.getD d := by
  intro l
  induction l with
  | nil =>
    intro acc d s s' _ hs h
    simp [List.foldlM] at h
    subst h
    exact hs
  | cons a l ih =>
    intro acc d s s' hf hs h
    rw [List.foldlM] at h
    cases hfa : f s a with
    | none => rw [hfa] at h; simp at h
    | some s1 =>
      rw [hfa] at h
      simp only [Option.bind_eq_bind', Option.some_bind] at h
      have hs1 : s1.hovered = (acc ++ g a).getLast?.getD d := by
        rw [lastD_append, ← hs]
        exact hf a (by simp) s s1 hfa
      exact ih (acc ++ g a) d s1 s' (fun ch hch => hf ch (by simp [hch])) hs1 h

/-- One `hover_entity` call leaves in the hovered accumulator the last
node of its match trace, or the incoming value when the trace is
empty. -/
theorem hoverEntity_lastMatch (c : Ctx) :
    ∀ (fuel : Nat) (cz : Int) (pe : Bool) (tf : Matrix) (cl : BoundingBox)
      (n : Entity) (st st' : WalkSt),
      hoverEntity c fuel cz pe tf cl n st = some st' →
      st'.hovered = (hoverMatches c fuel cz pe tf cl n).getLast?.getD st.hovered := by
  intro fuel
  induction fuel with
  | zero =>
    intro cz pe tf cl n st st' h
    simp [hoverEntity] at h
  | succ fuel ih =>
    intro cz pe tf cl n st st' h
    rw [hoverEntity] at h
    rw [hoverMatches]
    dsimp only at h ⊢
    split at h
    · rename_i hcond
      injection h with h
      subst h
      rw [if_pos hcond]
      rfl
    · rename_i hcond
      rw [if_neg hcond]
      split at h
      · rename_i hcond2
        injection h with h
        subst h
        rw [if_pos hcond2]
        rfl
      · rename_i hcond2
        rw [if_neg hcond2]
        split at h
        · rename_i hcond3
          injection h with h
          subst h
          rw [if_pos hcond3]
          rfl
        · rename_i hcond3
          rw [if_neg hcond3]
          split at h
          · rename_i hcond4
            injection h with h
            subst h
            rw [if_pos hcond4]
            rfl
          · rename_i hcond4
            rw [if_neg hcond4]
            split at h
            · exact absurd h (by simp)
            · rename_i ti hti
              refine fold_last _ _ (c.children n) _ st.hovered _ st'
                (fun ch hch t t' hft => ih _ _ _ _ ch t t' hft) ?_ h
              split
              · split
                · rw [markOver_hovered]
                  rfl
                · rw [unmarkOver_hovered, clearHover_hovered]
                  rfl
              · rw [clearHover_hovered]
                rfl

/-- The pop-process loop leaves in the hovered accumulator the last
node of its match trace, or the incoming value when the trace is
empty. -/
theorem hoverLoop_lastMatch (c : Ctx) (df : Nat) :
    ∀ (lf : Nat) (st st' : WalkSt),
      hoverLoop c df lf st = some st' →
      st'.hovered = (loopMatches c df lf st).getLast?.getD st.hovered := by
  intro lf
  induction lf with
  | zero =>
    intro st st' h
    rw [hoverLoop] at h
    split at h
    · injection h with h
      subst h
      rfl
    · simp at h
  | succ lf ih =>
    intro st st' h
    rw [hoverLoop] at h
    rw [loopMatches]
    cases hpop : heapPop st.queue with
    | mk oz q =>
      rw [hpop] at h
      cases oz with
      | none =>
        injection h with h
        subst h
        rfl
      | some z =>
        dsimp only at h ⊢
        cases hhe : hoverEntity c df z.index z.pointerEvents Matrix.identity hugeClip
            z.entity { st with queue := q } with
        | none => rw [hhe] at h; simp at h
        | some st2 =>
          rw [hhe] at h
          dsimp only
          have h1 : st2.hovered = (hoverMatches c df z.index z.pointerEvents
              Matrix.identity hugeClip z.entity).getLast?.getD st.hovered :=
            hoverEntity_lastMatch c df z.index z.pointerEvents Matrix.identity
              hugeClip z.entity { st with queue := q } st2 hhe
          have h2 := ih st2 st' h
          rw [lastD_append, ← h1]
          exact h2

/-- C6 (amended): in every completed pass not skipped by the OVER
guard, the resolved hovered node is the last node of the pass's match
trace — the nodes whose hit test matched with pointer events enabled,
in the priority-respecting visit order (each popped work item followed
by its subtree walk in draw order) — or the seed window default when
the trace is empty.  Hence a matched node followed by a later match it
does not repeat (its matching descendant is visited later in the same
walk; a matching deferred higher-z item is processed later still) is
never the resolved node, and the node carrying the last match of the
pass always is — so the descendant beats its ancestor, but only wins
the pass when its own match is the last. -/
theorem C6_last_match_wins (c : Ctx) (df lf : Nat) (out : OutSt)
    (hov : ∀ pc, c.store.pseudoInit c.window = some pc → pc.over = true)
    (h : hoverSystem c df lf = some out) :
    out.newHovered = (passMatches c df lf).getLast?.getD c.window
    ∧ (∀ (l₁ l₂ : List Entity) (a : Entity), passMatches c df lf = l₁ ++ a :: l₂ →
        l₂ ≠ [] → a ∉ l₂ → out.newHovered ≠ a)
    ∧ (∀ (l₁ : List Entity) (d : Entity), passMatches c df lf = l₁ ++ [d] →
        out.newHovered = d) := by
  have hmain : out.newHovered = (passMatches c df lf).getLast?.getD c.window := by
    rw [hoverSystem] at h
    split at h
    · rename_i hskip
      exfalso
      cases hpc : c.store.pseudoInit c.window with
      | none => rw [hpc] at hskip; simp at hskip
      | some pc =>
        rw [hpc] at hskip
        have hover : pc.over = true := hov pc hpc
        simp [hover] at hskip
    · cases hres : hoverLoop c df lf (initialWalkSt c) with
      | none => rw [hres] at h; simp at h
      | some st =>
        rw [hres] at h
        simp only [] at h
        injection h with h
        subst h
        have hl := hoverLoop_lastMatch c df lf (initialWalkSt c) st hres
        rw [postProcess]
        dsimp only
        split
        · exact hl
        · rename_i hne
          have heq : st.hovered = c.hovered := not_not.mp hne
          rw [← heq]
          exact hl
  refine ⟨hmain, ?_, ?_⟩
  · intro l₁ l₂ a hsp hne hnm
    rw [hsp] at hmain
    cases l₂ with
    | nil => exact absurd rfl hne
    | cons b t =>
      rw [lastD_append, List.getLast?_cons_cons] at hmain
      have hbt : (b :: t) ≠ ([] : List Entity) := by simp
      rw [List.getLast?_eq_getLast_of_ne_nil hbt, Option.getD_some] at hmain
      intro he
      apply hnm
      rw [← he, hmain]
      exact List.getLast_mem hbt
  · intro l₁ d hsp
    rw [hsp, lastD_append] at hmain
    exact hmain

/-- Witness for C6 amended on `cx6` and `cx6b`: both passes complete,
the `cx6` match trace is [0, 1, 2, 3] (window, ancestor, descendant,
then the deferred high-z cousin) with last element the resolved node 3,
and the `cx6b` trace is [0, 1, 2] whose final matching descendant 2 is
the resolved node. -/
theorem C6_last_match_wins_witness :
    (∃ out, hoverSystem cx6 10 10 = some out
      ∧ out.newHovered = (passMatches cx6 10 10).getLast?.getD cx6.window)
    ∧ (∃ out, hoverSystem cx6b 10 10 = some out ∧ out.newHovered = 2)
    ∧ passMatches cx6 10 10 = [0, 1, 2, 3]
    ∧ passMatches cx6b 10 10 = [0, 1, 2] := by
  have hpcs : ∀ pc : PseudoClassFlags, cx6.store.pseudoInit 0 = some pc →
      pc.over = true := by
    intro pc hpc
    have h0 : cx6.store.pseudoInit 0 = some ⟨true, false⟩ := by with_unfolding_all rfl
    rw [h0] at hpc
    injection hpc with hpc
    rw [← hpc]
  have hs : (hoverSystem cx6 10 10).isSome = true := by with_unfolding_all rfl
  obtain ⟨out, hout⟩ := Option.isSome_iff_exists.mp hs
  have hsb : (hoverSystem cx6b 10 10).isSome = true := by with_unfolding_all rfl
  obtain ⟨outb, houtb⟩ := Option.isSome_iff_exists.mp hsb
  refine ⟨⟨out, hout, (C6_last_match_wins cx6 10 10 out hpcs hout).1⟩,
    ⟨outb, houtb, ?_⟩, by with_unfolding_all rfl, by with_unfolding_all rfl⟩
  exact (C6_last_match_wins cx6b 10 10 outb hpcs houtb).2.2 [0, 1] 2
    (by with_unfolding_all rfl)

/-! ### Claim C8 -/

/-- C8 counterexample: four work items of equal z-index pushed in order
1, 2, 3, 4 pop from the std binary heap in order 1, 3, 2, 4 — the item
inserted second (2) is processed after the one inserted third (3), so
"first inserted is processed first" fails; consequently the resolved
hovered node of the `cx8` pass is 2 (the last-processed matching item),
not the draw-order prediction 3. -/
theorem C8_heap_not_insertion_order_counterexample :
    (heapPopAll 10 (heapPush (heapPush (heapPush (heapPush []
      ⟨5, true, 1⟩) ⟨5, true, 2⟩) ⟨5, true, 3⟩) ⟨5, true, 4⟩)).map (fun z => z.entity)
      = [1, 3, 2, 4]
    ∧ ([1, 3, 2, 4] : List Entity) ≠ [1, 2, 3, 4]
    ∧ (hoverSystem cx8 10 10).map (fun o => o.newHovered) = some 2
    ∧ hitTest ⟨40, 0, 20, 10⟩ 50 5 = true
    ∧ cx8.store.zIndex 2 = some 5 ∧ cx8.store.zIndex 3 = some 5
    ∧ cx8.children 0 = [1, 2, 3, 4] := by
  refine ⟨by decide, by decide, by with_unfolding_all rfl,
    by with_unfolding_all rfl, by with_unfolding_all rfl, by with_unfolding_all rfl, rfl⟩

/-- C8 amended: equal-z-index work items are popped in the
deterministic order of the std binary heap — for items pushed in order
1, 2, 3, 4 that order is 1, 3, 2, 4, not insertion order — and the
resolved hovered node of the fixed `cx8` pass is determined
accordingly (entity 2). -/
theorem C8_equal_z_deterministic_heap_order :
    (hoverSystem cx8 10 10).map (fun o => o.newHovered) = some 2
    ∧ (heapPopAll 10 (heapPush (heapPush (heapPush (heapPush []
      ⟨5, true, 1⟩) ⟨5, true, 2⟩) ⟨5, true, 3⟩) ⟨5, true, 4⟩)).map (fun z => z.entity)
      = [1, 3, 2, 4] :=
  ⟨by with_unfolding_all rfl, by decide⟩

end Vizia